import Mathlib

/-
  Verification development for the Mandelbrot-Generator repository.

  Shallow embedding conventions:
  * 64-bit floating-point arithmetic is modelled by exact rational arithmetic
    (`ℚ`); every arithmetic expression is transcribed operation by operation
    from the Python source.
  * numpy `uint8` storage casts are modelled by `% 256` on `ℤ`.
  * The Python colour-scheme callbacks (`color_scheme` in `Normal`, the
    numba `determine_colorscheme` dispatch in `Accelerated`) are higher-order
    parameters of the code; they are modelled as function parameters of type
    `ColorScheme`.  The accelerated evaluator returns `uint8` colours, so its
    colour is stored through the byte cast.
  * Real-valued library calls (`np.log`, `np.sqrt`) appear in the source only
    inside the value of `distance_estimate`; definedness of that value is
    what the claims discuss, so the embedding records the pair
    `(|z|^2, |dz|^2)` from which `ln(|z|^2) * sqrt(|z|^2 / |dz|^2)` would be
    computed, wrapped in `Option` exactly where the source computes it.
  * `while` loops are encoded by fuel recursion; the fuel is chosen so that
    the guard, transcribed verbatim, decides termination before the fuel can
    run out.
  * The memoisation dictionary of `Normal.util.calculate` caches the pure
    result keyed by the input coordinates; it is observationally the
    identity on everything the claims mention and is omitted.
-/

namespace Mandel

/-- RGB triple as stored by the program (numpy arrays of three components). -/
abbrev Cell : Type := ℤ × ℤ × ℤ

/-- numpy `uint8` coercion applied when a value is stored into a `uint8` array. -/
def castByte (v : ℤ) : ℤ := v % 256

/-- Componentwise `uint8` coercion of an RGB triple. -/
def castCell (c : Cell) : Cell := (castByte c.1, castByte c.2.1, castByte c.2.2)

/-- The pixel buffer, indexed `(row, column)` like the numpy `pixels` array. -/
abbrev Buffer : Type := ℤ → ℤ → Cell

/-- `pixels[row][col] = v` (numpy stores through the `uint8` dtype). -/
def writePx (b : Buffer) (row col : ℤ) (v : Cell) : Buffer :=
  fun i j => if i = row ∧ j = col then castCell v else b i j

/-- Arguments handed to a colour scheme, mirroring the keyword arguments of
`Normal.coloring` / the positional arguments of
`Accelerated.calculation.determine_colorscheme`.  `distanceEstimate` carries
the pair `(|z|^2, |dz|^2)` defining `ln(|z|^2) * sqrt(|z|^2 / |dz|^2)` when the
source computes a distance estimate, `none` where the source passes `None`
(respectively the `0.0` placeholder of the accelerated path). -/
structure ColorArgs where
  maxIteration : ℕ
  iteration : ℕ
  distanceEstimate : Option (ℚ × ℚ)
  final : ℚ × ℚ
  escapeRadius : ℚ
  smooth : Bool

/-- A colour scheme: deterministic map from evaluator observables to RGB. -/
abbrev ColorScheme : Type := ColorArgs → Cell

/-- `in_main_body` of `Normal/util.py` and `Accelerated/calculation.py`
(textually identical in both files):
`q = (x－0.25)² + y²;  return q*(q + x − 0.25) ≤ 0.25*y²`. -/
def inMainBody (x y : ℚ) : Bool :=
  let q : ℚ := (x - 1/4) * (x - 1/4) + y * y
  decide (q * (q + x - 1/4) ≤ 1/4 * (y * y))

/-- Orbit-loop state: the local variables of the iteration loops of
`Normal.util.calculate` and `Accelerated.calculation.calculate`.
`steps` is instrumentation counting executed loop bodies (orbit iterations);
it is not a program variable. -/
structure OrbitState where
  x : ℚ
  y : ℚ
  x2 : ℚ
  y2 : ℚ
  w : ℚ
  xOld : ℚ
  yOld : ℚ
  period : ℕ
  dx : ℚ
  dy : ℚ
  iterations : ℕ
  steps : ℕ
  deriving Repr, DecidableEq

/-- Initial loop state (`x = y = x2 = y2 = w = 0`, `dx = dy = 0`, ...). -/
def initOrbit : OrbitState :=
  { x := 0, y := 0, x2 := 0, y2 := 0, w := 0, xOld := 0, yOld := 0,
    period := 0, dx := 0, dy := 0, iterations := 0, steps := 0 }

/-- One execution of the shared loop body:
`x = x2 - y2 + x0; y = w - x2 - y2 + y0; x2 = x*x; y2 = y*y; w = (x+y)*(x+y);`
`dx2 = 2*(x*dx - y*dy) + 1; dy = 2*(y*dx + x*dy); dx = dx2; iterations += 1`. -/
def orbitStep (x0 y0 : ℚ) (s : OrbitState) : OrbitState :=
  let x : ℚ := s.x2 - s.y2 + x0
  let y : ℚ := s.w - s.x2 - s.y2 + y0
  let x2 : ℚ := x * x
  let y2 : ℚ := y * y
  let w : ℚ := (x + y) * (x + y)
  let dx2 : ℚ := 2 * (x * s.dx - y * s.dy) + 1
  let dy : ℚ := 2 * (y * s.dx + x * s.dy)
  { s with x := x, y := y, x2 := x2, y2 := y2, w := w,
           dx := dx2, dy := dy,
           iterations := s.iterations + 1, steps := s.steps + 1 }

/-- The `while` loop of `Normal.util.calculate`:
`while x2 + y2 <= escape_radius_squared and iterations < max_iterations`,
with periodicity checking at cadence 20 (`if period > 20`), encoded by fuel
recursion; the transcribed guard also bounds the recursion, so fuel
`maxIter` never runs out before the guard stops the loop. -/
def normalLoop (x0 y0 R2 : ℚ) (maxIter : ℕ) (pc : Bool) :
    ℕ → OrbitState → OrbitState
  | 0, s => s
  | fuel + 1, s =>
    if s.x2 + s.y2 ≤ R2 ∧ s.iterations < maxIter then
      if pc then
        if (orbitStep x0 y0 s).x = s.xOld ∧ (orbitStep x0 y0 s).y = s.yOld then
          { orbitStep x0 y0 s with iterations := maxIter }
        else if s.period + 1 > 20 then
          normalLoop x0 y0 R2 maxIter pc fuel
            { orbitStep x0 y0 s with
              period := 0
              xOld := (orbitStep x0 y0 s).x
              yOld := (orbitStep x0 y0 s).y }
        else
          normalLoop x0 y0 R2 maxIter pc fuel
            { orbitStep x0 y0 s with period := s.period + 1 }
      else
        normalLoop x0 y0 R2 maxIter pc fuel (orbitStep x0 y0 s)
    else s

/-- The `for i in range(max_iterations)` loop of
`Accelerated.calculation.calculate`: the body runs, then
`if x2 + y2 >= escape_radius_squared: break`, then the periodicity block with
`if period > period_checking` (numba `b1`, so the threshold is 1). -/
def accLoop (x0 y0 R2 : ℚ) (maxIter : ℕ) (pc : Bool) :
    ℕ → OrbitState → OrbitState
  | 0, s => s
  | fuel + 1, s =>
    if R2 ≤ (orbitStep x0 y0 s).x2 + (orbitStep x0 y0 s).y2 then orbitStep x0 y0 s
    else if pc then
      if (orbitStep x0 y0 s).x = s.xOld ∧ (orbitStep x0 y0 s).y = s.yOld then
        { orbitStep x0 y0 s with iterations := maxIter }
      else if s.period + 1 > 1 then
        accLoop x0 y0 R2 maxIter pc fuel
          { orbitStep x0 y0 s with
            period := 0
            xOld := (orbitStep x0 y0 s).x
            yOld := (orbitStep x0 y0 s).y }
      else
        accLoop x0 y0 R2 maxIter pc fuel
          { orbitStep x0 y0 s with period := s.period + 1 }
    else
      accLoop x0 y0 R2 maxIter pc fuel (orbitStep x0 y0 s)

/-- Observable result of one evaluator run.  `color`/`inSet` are what the
Python functions return; `iterations`, `final`, `zsq = |z|^2`,
`dzsq = |dz|^2` and `distanceEstimate` are the values the source feeds to the
colour scheme; `orbitSteps` counts executed orbit-loop bodies. -/
structure EvalResult where
  color : Cell
  inSet : Bool
  iterations : ℕ
  final : ℚ × ℚ
  zsq : ℚ
  dzsq : ℚ
  distanceEstimate : Option (ℚ × ℚ)
  orbitSteps : ℕ
  deriving Repr, DecidableEq

/-- `Normal.util.calculate` (memoisation omitted, see the header comment):
main-body short-circuit, the `while` orbit loop, then
`distance_estimate = np.log(z) * np.sqrt(z / dz) if iterations != max_iterations else None`
and the colour-scheme call; returns `(color, iterations == max_iterations)`. -/
def normalCalculate (x0 y0 : ℚ) (maxIter : ℕ) (R : ℚ) (smooth : Bool)
    (cs : ColorScheme) (pc : Bool) : EvalResult :=
  if inMainBody x0 y0 then
    { color := cs ⟨maxIter, maxIter, none, (x0, y0), R, smooth⟩,
      inSet := true, iterations := maxIter, final := (x0, y0),
      zsq := 0, dzsq := 0, distanceEstimate := none, orbitSteps := 0 }
  else
    let s := normalLoop x0 y0 (R * R) maxIter pc maxIter initOrbit
    let z : ℚ := s.x2 + s.y2
    let dz : ℚ := s.dx * s.dx + s.dy * s.dy
    let de : Option (ℚ × ℚ) := if s.iterations ≠ maxIter then some (z, dz) else none
    { color := cs ⟨maxIter, s.iterations, de, (s.x, s.y), R, smooth⟩,
      inSet := decide (s.iterations = maxIter),
      iterations := s.iterations, final := (s.x, s.y),
      zsq := z, dzsq := dz, distanceEstimate := de, orbitSteps := s.steps }

/-- `Accelerated.calculation.calculate`: main-body short-circuit (returning
`[1, color]`), the `for` orbit loop, `distance_estimate` computed only under
`if iterations != max_iterations`, the fused colour computation, and the
`isMaxIteration` flag `iterations == max_iterations`.  The numba signature
returns `u1[:]`, so the colour passes through the `uint8` cast. -/
def accCalculate (x0 y0 : ℚ) (maxIter : ℕ) (R : ℚ) (smooth : Bool)
    (cs : ColorScheme) (pc : Bool) : EvalResult :=
  if inMainBody x0 y0 then
    { color := castCell (cs ⟨maxIter, maxIter, none, (x0, y0), R, smooth⟩),
      inSet := true, iterations := maxIter, final := (x0, y0),
      zsq := 0, dzsq := 0, distanceEstimate := none, orbitSteps := 0 }
  else
    let s := accLoop x0 y0 (R * R) maxIter pc maxIter initOrbit
    let z : ℚ := s.x2 + s.y2
    let dz : ℚ := s.dx * s.dx + s.dy * s.dy
    let de : Option (ℚ × ℚ) := if s.iterations ≠ maxIter then some (z, dz) else none
    { color := castCell (cs ⟨maxIter, s.iterations, de, (s.x, s.y), R, smooth⟩),
      inSet := decide (s.iterations = maxIter),
      iterations := s.iterations, final := (s.x, s.y),
      zsq := z, dzsq := dz, distanceEstimate := de, orbitSteps := s.steps }

/-! ## QuadTree (`quadtree.py`) -/

/-- `quadtree.py`'s `QuadTree` node: coordinates `tl`, `br` are `(x, y)`
pairs (column first, row second), exactly as stored by the source; the node
denotes the half-open pixel rectangle `[tl, br)`. -/
structure QuadTree where
  tl : ℤ × ℤ
  br : ℤ × ℤ
  deriving Repr, DecidableEq

/-- `self.rows = self.br[1] - self.tl[1]`. -/
def QuadTree.rows (q : QuadTree) : ℤ := q.br.2 - q.tl.2

/-- `self.cols = self.br[0] - self.tl[0]`. -/
def QuadTree.cols (q : QuadTree) : ℤ := q.br.1 - q.tl.1

/-- `QuadTree.split(boundary)`: insets by `boundary`, raises when the inset
rectangle has `rows < 1 or cols < 1`, and otherwise produces 1, 2 or 4
children split at the floor-halfway points (`//` is Python floor division,
i.e. `Int.ediv` for the positive divisor 2).  Children are listed in source
order. -/
def QuadTree.split (q : QuadTree) (boundary : ℤ) : Except String (List QuadTree) :=
  let tl : ℤ × ℤ := (q.tl.1 + boundary, q.tl.2 + boundary)
  let br : ℤ × ℤ := (q.br.1 - boundary, q.br.2 - boundary)
  let cols : ℤ := br.1 - tl.1
  let rows : ℤ := br.2 - tl.2
  if rows < 1 ∨ cols < 1 then
    Except.error "Cannot split node."
  else if rows = 1 ∧ cols = 1 then
    Except.ok [⟨tl, br⟩]
  else
    let sbx : ℤ := cols / 2
    let sby : ℤ := rows / 2
    if rows = 1 then
      Except.ok [⟨tl, (tl.1 + sbx, br.2)⟩, ⟨(tl.1 + sbx, tl.2), br⟩]
    else if cols = 1 then
      Except.ok [⟨tl, (br.1, tl.2 + sby)⟩, ⟨(tl.1, tl.2 + sby), br⟩]
    else
      Except.ok
        [⟨tl, (tl.1 + sbx, tl.2 + sby)⟩,
         ⟨(tl.1 + sbx, tl.2), (br.1, tl.2 + sby)⟩,
         ⟨(tl.1, tl.2 + sby), (tl.1 + sbx, br.2)⟩,
         ⟨(tl.1 + sbx, tl.2 + sby), br⟩]

/-- `QuadTree.fill_array(array, value, boundary)`: raises "Array too small"
when `len(array) < br[1] and len(array[0]) < br[0]` (note the conjunction in
the source), otherwise performs the numpy slice assignment
`array[tl[1]+boundary : br[1]-boundary, tl[0]+boundary : br[0]-boundary] = value`
(slices clip to the array bounds; the value passes through the `uint8`
dtype).  `bufRows`/`bufCols` are `len(array)` and `len(array[0])`. -/
def QuadTree.fillArray (q : QuadTree) (bufRows bufCols : ℤ) (buf : Buffer)
    (v : Cell) (boundary : ℤ) : Except String Buffer :=
  if bufRows < q.br.2 ∧ bufCols < q.br.1 then
    Except.error "Array too small"
  else
    Except.ok (fun i j =>
      if q.tl.2 + boundary ≤ i ∧ i < q.br.2 - boundary ∧
         q.tl.1 + boundary ≤ j ∧ j < q.br.1 - boundary ∧
         0 ≤ i ∧ i < bufRows ∧ 0 ≤ j ∧ j < bufCols then
        castCell v
      else buf i j)

/-- Pixel membership in the rectangle `[tl, br)` of a node. -/
def QuadTree.mem (q : QuadTree) (p : ℤ × ℤ) : Prop :=
  q.tl.1 ≤ p.1 ∧ p.1 < q.br.1 ∧ q.tl.2 ≤ p.2 ∧ p.2 < q.br.2

instance (q : QuadTree) (p : ℤ × ℤ) : Decidable (q.mem p) := by
  unfold QuadTree.mem; infer_instance

/-- Membership in the rectangle inset by `b` pixels on each side (the part
of a region strictly inside the scanned border when `b = 1`). -/
def QuadTree.inner (q : QuadTree) (b : ℤ) (p : ℤ × ℤ) : Prop :=
  q.tl.1 + b ≤ p.1 ∧ p.1 < q.br.1 - b ∧ q.tl.2 + b ≤ p.2 ∧ p.2 < q.br.2 - b

instance (q : QuadTree) (b : ℤ) (p : ℤ × ℤ) : Decidable (q.inner b p) := by
  unfold QuadTree.inner; infer_instance

/-! ## Border scanners -/

/-- `range(a, b)` over `ℤ`, as the list of indices a Python `for` visits. -/
def intRange (a b : ℤ) : List ℤ :=
  (List.range (b - a).toNat).map (fun k : ℕ => a + (k : ℤ))

/-- Configuration shared by the scanner/driver embeddings: the sample grids
`x[]`, `y[]` (as index functions), and the evaluator parameters. -/
structure Config where
  x : ℤ → ℚ
  y : ℤ → ℚ
  maxIterations : ℕ
  escapeRadius : ℚ
  smooth : Bool
  colorScheme : ColorScheme
  periodChecking : Bool

/-- `calculate(x[col], y[row], ...)` of the Normal path, as the
`(color, in_set)` pair the scanners consume. -/
def Config.calc (c : Config) (col row : ℤ) : Cell × Bool :=
  let r := normalCalculate (c.x col) (c.y row) c.maxIterations c.escapeRadius
    c.smooth c.colorScheme c.periodChecking
  (r.color, r.inSet)

/-- `Accelerated.calculation.calculate(x[col], y[row], ...)`, as the
`(color, in_set)` pair consumed by the accelerated scanners (`result[0]`
and `result[1:]`). -/
def Config.accCalc (c : Config) (col row : ℤ) : Cell × Bool :=
  let r := accCalculate (c.x col) (c.y row) c.maxIterations c.escapeRadius
    c.smooth c.colorScheme c.periodChecking
  (r.color, r.inSet)

/-- State of the Normal plain border scan: the `split` flag, the reference
`border` colour (`None` until the first top pixel is evaluated), the pixel
buffer, and the instrumentation trace of `(row, col)` coordinates passed to
`calculate`, in call order. -/
structure ScanSt where
  split : Bool
  border : Option Cell
  buf : Buffer
  trace : List (ℤ × ℤ)

/-- Top/bottom-row loop body of `Normal.util.calculate_quadtree` for column
`i` (writes `pixels[tl[1]][i]` and `pixels[br[1]-1][i]`; the guarded
`if not split: split |= e` is transcribed as `split := split || e`). -/
def nqTopBottom (c : Config) (q : QuadTree) (st : ScanSt) (i : ℤ) : ScanSt :=
  match st.border with
  | some border =>
    let top := c.calc i q.tl.2
    let split1 := st.split || decide (border ≠ top.1)
    let buf1 := writePx st.buf q.tl.2 i top.1
    let bottom := c.calc i (q.br.2 - 1)
    let split2 := split1 || decide (border ≠ bottom.1)
    { split := split2, border := some border,
      buf := writePx buf1 (q.br.2 - 1) i bottom.1,
      trace := st.trace ++ [(q.tl.2, i), (q.br.2 - 1, i)] }
  | none =>
    let top := c.calc i q.tl.2
    let buf1 := writePx st.buf q.tl.2 i top.1
    let bottom := c.calc i (q.br.2 - 1)
    let split2 := st.split || decide (top.1 ≠ bottom.1)
    { split := split2, border := some top.1,
      buf := writePx buf1 (q.br.2 - 1) i bottom.1,
      trace := st.trace ++ [(q.tl.2, i), (q.br.2 - 1, i)] }

/-- Left/right-column loop body of `Normal.util.calculate_quadtree` for row
`j` (writes `pixels[j][tl[0]]` and `pixels[j][br[0]-1]`; comparing a colour
against a `None` border — numpy `array != None` — yields a disagreement). -/
def nqLeftRight (c : Config) (q : QuadTree) (st : ScanSt) (j : ℤ) : ScanSt :=
  let left := c.calc q.tl.1 j
  let buf1 := writePx st.buf j q.tl.1 left.1
  let split1 := st.split || decide (st.border ≠ some left.1)
  let right := c.calc (q.br.1 - 1) j
  let buf2 := writePx buf1 j (q.br.1 - 1) right.1
  let split2 := split1 || decide (st.border ≠ some right.1)
  { split := split2, border := st.border, buf := buf2,
    trace := st.trace ++ [(j, q.tl.1), (j, q.br.1 - 1)] }

/-- `Normal.util.calculate_quadtree`: 1×1 regions return the point's colour
without touching the buffer; otherwise the top/bottom loop runs over
`range(tl[0], br[0])`, the left/right loop over `range(tl[1], br[1])`, and
the function returns `(split and cols > 3 and rows > 3, border)`.
The third and fourth components are the updated buffer and the trace of
evaluated coordinates. -/
def normalScanQt (c : Config) (q : QuadTree) (buf : Buffer) :
    Bool × Option Cell × Buffer × List (ℤ × ℤ) :=
  if q.rows = 1 ∧ q.cols = 1 then
    (false, some (c.calc q.tl.1 q.tl.2).1, buf, [(q.tl.2, q.tl.1)])
  else
    let st1 := (intRange q.tl.1 q.br.1).foldl (nqTopBottom c q)
      ⟨false, none, buf, []⟩
    let st2 := (intRange q.tl.2 q.br.2).foldl (nqLeftRight c q) st1
    (st2.split && decide (q.cols > 3) && decide (q.rows > 3),
     st2.border, st2.buf, st2.trace)

/-- State of the Normal mixed border scan (`calculated_mixed_raster_quadtree`):
the fill colour (initially the `[-1,-1,-1]` sentinel), the `isMandelbrot`
and `hasMandelbrot` accumulators, the buffer, and the evaluation trace. -/
structure MixedSt where
  color : Cell
  isM : Bool
  hasM : Bool
  buf : Buffer
  trace : List (ℤ × ℤ)

/-- Top/bottom-row loop body of `calculated_mixed_raster_quadtree`:
for each of the two border points, `if not hasMandelbrot and inSet: color = border`,
then `isMandelbrot &= inSet; hasMandelbrot |= inSet`, then the buffer write. -/
def mxTopBottom (c : Config) (q : QuadTree) (st : MixedSt) (i : ℤ) : MixedSt :=
  let top := c.calc i q.tl.2
  let color1 := if ¬ st.hasM ∧ top.2 then top.1 else st.color
  let isM1 := st.isM && top.2
  let hasM1 := st.hasM || top.2
  let buf1 := writePx st.buf q.tl.2 i top.1
  let bottom := c.calc i (q.br.2 - 1)
  let color2 := if ¬ hasM1 ∧ bottom.2 then bottom.1 else color1
  let isM2 := isM1 && bottom.2
  let hasM2 := hasM1 || bottom.2
  { color := color2, isM := isM2, hasM := hasM2,
    buf := writePx buf1 (q.br.2 - 1) i bottom.1,
    trace := st.trace ++ [(q.tl.2, i), (q.br.2 - 1, i)] }

/-- Left/right-column loop body of `calculated_mixed_raster_quadtree`.
The left pixel is written at `pixels[j][tl[0]]`; the right pixel's colour is
written at `pixels[br[0] - 1][j]` — transcribed exactly as in the source
(first index `br[0] - 1`, second index `j`). -/
def mxLeftRight (c : Config) (q : QuadTree) (st : MixedSt) (j : ℤ) : MixedSt :=
  let left := c.calc q.tl.1 j
  let color1 := if ¬ st.hasM ∧ left.2 then left.1 else st.color
  let isM1 := st.isM && left.2
  let hasM1 := st.hasM || left.2
  let buf1 := writePx st.buf j q.tl.1 left.1
  let right := c.calc (q.br.1 - 1) j
  let color2 := if ¬ hasM1 ∧ right.2 then right.1 else color1
  let isM2 := isM1 && right.2
  let hasM2 := hasM1 || right.2
  { color := color2, isM := isM2, hasM := hasM2,
    buf := writePx buf1 (q.br.1 - 1) j right.1,
    trace := st.trace ++ [(j, q.tl.1), (j, q.br.1 - 1)] }

/-- `Normal.util.calculated_mixed_raster_quadtree`: returns
`(isMandelbrot != hasMandelbrot and (rows > 3 and cols > 3), color)` plus
the updated buffer and the evaluation trace. -/
def mixedScanQt (c : Config) (q : QuadTree) (buf : Buffer) :
    Bool × Cell × Buffer × List (ℤ × ℤ) :=
  if q.rows = 1 ∧ q.cols = 1 then
    ((false : Bool), (c.calc q.tl.1 q.tl.2).1, buf, [(q.tl.2, q.tl.1)])
  else
    let st1 := (intRange q.tl.1 q.br.1).foldl (mxTopBottom c q)
      ⟨(-1, -1, -1), true, false, buf, []⟩
    let st2 := (intRange q.tl.2 q.br.2).foldl (mxLeftRight c q) st1
    ((st2.isM != st2.hasM) && (decide (q.rows > 3) && decide (q.cols > 3)),
     st2.color, st2.buf, st2.trace)

/-- State of the accelerated plain border scan
(`Accelerated.normal_quadtree.calculate_quadtree`): `split`, the
`border_set` flag, the `border` colour (initialised to the `uint8` view of
`[-1,-1,-1]`, i.e. `[255,255,255]`), the buffer and the trace. -/
structure AccScanSt where
  split : Bool
  borderSet : Bool
  border : Cell
  buf : Buffer
  trace : List (ℤ × ℤ)

/-- Top/bottom-row loop body of the accelerated plain scanner: each
disagreement check is guarded by `cols >= 3 and rows >= 3`
(`if not split and cols >= 3 and rows >= 3: split |= not array_equal(...)`,
transcribed as `split := split || (guard && disagreement)`). -/
def aqTopBottom (c : Config) (q : QuadTree) (st : AccScanSt) (i : ℤ) : AccScanSt :=
  if st.borderSet then
    let top := c.accCalc i q.tl.2
    let split1 := st.split ||
      (decide (q.cols ≥ 3) && decide (q.rows ≥ 3) && decide (st.border ≠ top.1))
    let buf1 := writePx st.buf q.tl.2 i top.1
    let bottom := c.accCalc i (q.br.2 - 1)
    let split2 := split1 ||
      (decide (q.cols ≥ 3) && decide (q.rows ≥ 3) && decide (st.border ≠ bottom.1))
    { split := split2, borderSet := true, border := st.border,
      buf := writePx buf1 (q.br.2 - 1) i bottom.1,
      trace := st.trace ++ [(q.tl.2, i), (q.br.2 - 1, i)] }
  else
    let top := c.accCalc i q.tl.2
    let buf1 := writePx st.buf q.tl.2 i top.1
    let bottom := c.accCalc i (q.br.2 - 1)
    let split2 := st.split ||
      (decide (q.cols ≥ 3) && decide (q.rows ≥ 3) && decide (top.1 ≠ bottom.1))
    { split := split2, borderSet := true, border := top.1,
      buf := writePx buf1 (q.br.2 - 1) i bottom.1,
      trace := st.trace ++ [(q.tl.2, i), (q.br.2 - 1, i)] }

/-- Left/right-column loop body of the accelerated plain scanner; writes go
to `pixels[j][tl[0]]` and `pixels[j][br[0] - 1]`. -/
def aqLeftRight (c : Config) (q : QuadTree) (st : AccScanSt) (j : ℤ) : AccScanSt :=
  let left := c.accCalc q.tl.1 j
  let buf1 := writePx st.buf j q.tl.1 left.1
  let split1 := st.split ||
    (decide (q.cols ≥ 3) && decide (q.rows ≥ 3) && decide (st.border ≠ left.1))
  let right := c.accCalc (q.br.1 - 1) j
  let buf2 := writePx buf1 j (q.br.1 - 1) right.1
  let split2 := split1 ||
    (decide (q.cols ≥ 3) && decide (q.rows ≥ 3) && decide (st.border ≠ right.1))
  { split := split2, borderSet := st.borderSet, border := st.border,
    buf := buf2, trace := st.trace ++ [(j, q.tl.1), (j, q.br.1 - 1)] }

/-- `Accelerated.normal_quadtree.calculate_quadtree`: returns the split flag
and the border colour (the returned `uint8` 4-vector `[split, *border]`),
plus the updated buffer and the evaluation trace. -/
def accScanQt (c : Config) (q : QuadTree) (buf : Buffer) :
    Bool × Cell × Buffer × List (ℤ × ℤ) :=
  if q.rows = 1 ∧ q.cols = 1 then
    ((false : Bool), (c.accCalc q.tl.1 q.tl.2).1, buf, [(q.tl.2, q.tl.1)])
  else
    let st1 := (intRange q.tl.1 q.br.1).foldl (aqTopBottom c q)
      ⟨false, false, castCell (-1, -1, -1), buf, []⟩
    let st2 := (intRange q.tl.2 q.br.2).foldl (aqLeftRight c q) st1
    (st2.split, st2.border, st2.buf, st2.trace)

/-- The `(row, col)` coordinates of the pixels a border scan evaluates, in
evaluation order: top and bottom row for each column, then left and right
column for each row (corner rows/columns included in both loops). -/
def scannedCoords (q : QuadTree) : List (ℤ × ℤ) :=
  ((intRange q.tl.1 q.br.1).map (fun i => [(q.tl.2, i), (q.br.2 - 1, i)])).flatten ++
  ((intRange q.tl.2 q.br.2).map (fun j => [(j, q.tl.1), (j, q.br.1 - 1)])).flatten

/-- The colour the Normal evaluator computes for pixel `(row, col) = p`. -/
def pxColor (c : Config) (p : ℤ × ℤ) : Cell := (c.calc p.2 p.1).1

/-- The scanned border disagrees with the first evaluated border colour. -/
def borderDisagrees (c : Config) (q : QuadTree) : Prop :=
  ∃ p ∈ scannedCoords q, pxColor c p ≠ pxColor c (q.tl.2, q.tl.1)

/-- The colour the accelerated evaluator computes for pixel `(row, col) = p`. -/
def accPxColor (c : Config) (p : ℤ × ℤ) : Cell := (c.accCalc p.2 p.1).1

/-- Border disagreement for the accelerated scanner. -/
def accBorderDisagrees (c : Config) (q : QuadTree) : Prop :=
  ∃ p ∈ scannedCoords q, accPxColor c p ≠ accPxColor c (q.tl.2, q.tl.1)

/-! ## Renderer drivers -/

/-- The all-zero `uint8` pixel buffer created by both `__init__` methods
(`np.zeros((size[1], size[0], 3), dtype=np.uint8)`; for the configurations
the drivers actually build, `not mixed_raster or not raster` holds, so the
Normal path also starts from zeros). -/
def zeroBuf : Buffer := fun _ _ => (0, 0, 0)

/-- `Accelerated.raster.compute_raster(pixels, seen, x, y, ...)`:
`for i in range(y.shape[0]): for j in range(x.shape[0]):`
`if seen.shape[1] != 0 and not seen[i, j]: pixels[i, j] = calculate(...)[1:]`.
`seenCols` is `seen.shape[1]`; `ySize`/`xSize` are the grid lengths. -/
def computeRaster (c : Config) (ySize xSize : ℕ) (seenCols : ℕ)
    (seen : ℤ → ℤ → Bool) (buf : Buffer) : Buffer :=
  (intRange 0 ySize).foldl (fun b i =>
    (intRange 0 xSize).foldl (fun b2 j =>
      if seenCols ≠ 0 ∧ seen i j = false then
        writePx b2 i j (c.accCalc j i).1
      else b2) b) buf

/-- The queue loop of `AcceleratedMandelbrot.normal_quadtree` (sequential
accelerated plain-quadtree strategy): dequeue, scan, then either split
(children appended) or `fill_array(self.pixels, border)` with the default
boundary 1.  Fuel-indexed; `none` models both fuel exhaustion and an
exception escaping the loop. -/
def accSeqLoop (c : Config) (height width : ℤ) :
    ℕ → List QuadTree → Buffer → Option Buffer
  | _, [], buf => some buf
  | 0, _ :: _, _ => none
  | fuel + 1, q :: queue, buf =>
    let r := accScanQt c q buf
    if r.1 = true then
      match q.split 1 with
      | Except.ok cs => accSeqLoop c height width fuel (queue ++ cs) r.2.2.1
      | Except.error _ => none
    else
      match q.fillArray height width r.2.2.1 r.2.1 1 with
      | Except.ok buf2 => accSeqLoop c height width fuel queue buf2
      | Except.error _ => none

/-- `AcceleratedMandelbrot.normal_quadtree()`: root split with boundary 0,
then the queue loop over the root's children, starting from the zero
buffer. -/
def accGenSeqQuadtree (c : Config) (height width : ℕ) (fuel : ℕ) :
    Option Buffer :=
  match QuadTree.split ⟨(0, 0), ((width : ℤ), (height : ℤ))⟩ 0 with
  | Except.ok cs => accSeqLoop c (height : ℤ) (width : ℤ) fuel cs zeroBuf
  | Except.error _ => none

/-- Inner loop of `Normal.util.row_raster`:
`for j, x_val in enumerate(x): if (pixels[row][j] != unfilled_pixel).any():`
`pixels[row][j] = calculate(x_val, y[row], ...)` — note the guard
recomputes a pixel precisely when it is NOT equal to the `[-1,-1,-1]`
sentinel. -/
def rowRasterGo (c : Config) (row : ℤ) : List ℤ → Buffer → Buffer
  | [], buf => buf
  | j :: rest, buf =>
    let buf2 := if buf row j ≠ ((-1, -1, -1) : Cell) then
        writePx buf row j (c.calc j row).1
      else buf
    rowRasterGo c row rest buf2

/-- `Normal.util.row_raster(pixels, row, x, y, ...)` with `width = len(x)`. -/
def rowRaster (c : Config) (width : ℕ) (row : ℤ) (buf : Buffer) : Buffer :=
  rowRasterGo c row (intRange 0 width) buf

/-- The raster loop of `Mandelbrot.generate`
(`for i in range(self.size[1]): row_raster(self.pixels, i, ...)`). -/
def normalGenRaster (c : Config) (height width : ℕ) (buf : Buffer) : Buffer :=
  (intRange 0 height).foldl (fun b i => rowRaster c width i b) buf

/-- The pure-raster strategy of `Mandelbrot.generate` (pixels initialised
to zeros by `__init__`). -/
def normalGenRasterFull (c : Config) (height width : ℕ) : Buffer :=
  normalGenRaster c height width zeroBuf

/-- The queue loop of `Mandelbrot.generate`'s plain-quadtree branch:
scan with `calculate_quadtree`; on split, `quad_tree.split()` and enqueue
the children; otherwise `quad_tree.fill_array(self.pixels, border)`
(boundary 1).  A `None` border or an exception yields `none`. -/
def normalPlainLoop (c : Config) (height width : ℤ) :
    ℕ → List QuadTree → Buffer → Option Buffer
  | _, [], buf => some buf
  | 0, _ :: _, _ => none
  | fuel + 1, q :: queue, buf =>
    let r := normalScanQt c q buf
    if r.1 = true then
      match q.split 1 with
      | Except.ok cs => normalPlainLoop c height width fuel (queue ++ cs) r.2.2.1
      | Except.error _ => none
    else
      match r.2.1 with
      | some border =>
        match q.fillArray height width r.2.2.1 border 1 with
        | Except.ok buf2 => normalPlainLoop c height width fuel queue buf2
        | Except.error _ => none
      | none => none

/-- The plain (sequential quadtree) strategy of `Mandelbrot.generate`. -/
def normalGenPlain (c : Config) (height width : ℕ) (fuel : ℕ) :
    Option Buffer :=
  match QuadTree.split ⟨(0, 0), ((width : ℤ), (height : ℤ))⟩ 0 with
  | Except.ok cs => normalPlainLoop c (height : ℤ) (width : ℤ) fuel cs zeroBuf
  | Except.error _ => none

/-- The queue loop of `Mandelbrot.generate`'s mixed branch: scan with
`calculated_mixed_raster_quadtree`; on split enqueue children, otherwise
`quad_tree.fill_array(self.pixels, border)` unconditionally. -/
def normalMixedLoop (c : Config) (height width : ℤ) :
    ℕ → List QuadTree → Buffer → Option Buffer
  | _, [], buf => some buf
  | 0, _ :: _, _ => none
  | fuel + 1, q :: queue, buf =>
    let r := mixedScanQt c q buf
    if r.1 = true then
      match q.split 1 with
      | Except.ok cs => normalMixedLoop c height width fuel (queue ++ cs) r.2.2.1
      | Except.error _ => none
    else
      match q.fillArray height width r.2.2.1 r.2.1 1 with
      | Except.ok buf2 => normalMixedLoop c height width fuel queue buf2
      | Except.error _ => none

/-- The mixed (quadtree + raster fallback) strategy of
`Mandelbrot.generate`: root split, mixed queue loop, then the same
`row_raster` sweep over every row. -/
def normalGenMixed (c : Config) (height width : ℕ) (fuel : ℕ) :
    Option Buffer :=
  match QuadTree.split ⟨(0, 0), ((width : ℤ), (height : ℤ))⟩ 0 with
  | Except.ok cs =>
    (normalMixedLoop c (height : ℤ) (width : ℤ) fuel cs zeroBuf).map
      (fun b1 => normalGenRaster c height width b1)
  | Except.error _ => none

/-! ## The raster fallback rewrites every pixel -/

/-- All cells of a buffer have a non-negative first component.  This holds
for the `uint8` numpy buffers of the source (values 0..255) and implies no
cell ever equals the `[-1,-1,-1]` comparison sentinel of `row_raster`. -/
def BufOk (b : Buffer) : Prop := ∀ i j : ℤ, 0 ≤ (b i j).1

/-! ## Concrete configurations used by the concrete evaluations -/

/-- Configuration with a constant colour scheme whose sample grid maps every
index to the escaping point `(3, 0)`. -/
def cfgConstColor : Config :=
  { x := fun _ => 3, y := fun _ => 0, maxIterations := 2, escapeRadius := 2,
    smooth := false, colorScheme := fun _ => (7, 7, 7), periodChecking := true }

/-- Configuration whose column 0 maps to the escaping point `(3, 0)` and all
other columns to the in-set point `(0, 0)`; the colour scheme encodes the
iteration count, so border colours disagree within a region containing
column 0. -/
def cfgSplitDemo : Config :=
  { x := fun i => if i = 0 then 3 else 0, y := fun _ => 0,
    maxIterations := 2, escapeRadius := 2, smooth := false,
    colorScheme := fun a => ((a.iteration : ℤ), 0, 0), periodChecking := true }

/-- Configuration whose column 2 maps to the escaping point `(3, 0)` and all
other columns to the in-set point `(0, 0)`. -/
def cfgRightCol : Config :=
  { x := fun i => if i = 2 then 3 else 0, y := fun _ => 0,
    maxIterations := 2, escapeRadius := 2, smooth := false,
    colorScheme := fun a => ((a.iteration : ℤ), 0, 0), periodChecking := true }

/-! ## Properties of the orbit loops -/

lemma orbitStep_steps (x0 y0 : ℚ) (s : OrbitState) :
    (orbitStep x0 y0 s).steps = s.steps + 1 := rfl

lemma orbitStep_iterations (x0 y0 : ℚ) (s : OrbitState) :
    (orbitStep x0 y0 s).iterations = s.iterations + 1 := rfl

lemma normalLoop_steps_mono (x0 y0 R2 : ℚ) (maxIter : ℕ) (pc : Bool) :
    ∀ (fuel : ℕ) (s : OrbitState),
      s.steps ≤ (normalLoop x0 y0 R2 maxIter pc fuel s).steps := by
  intro fuel
  induction fuel with
  | zero => intro s; exact le_refl _
  | succ f ih =>
    intro s
    simp only [normalLoop]
    split_ifs with h1 h2 h3 h4
    · exact Nat.le_succ s.steps
    · refine le_trans ?_ (ih _)
      exact Nat.le_succ s.steps
    · refine le_trans ?_ (ih _)
      exact Nat.le_succ s.steps
    · refine le_trans ?_ (ih _)
      exact Nat.le_succ s.steps
    · exact le_refl _

lemma normalLoop_one_more (x0 y0 R2 : ℚ) (maxIter : ℕ) (pc : Bool) :
    ∀ (fuel : ℕ) (s : OrbitState), 1 ≤ fuel →
      s.x2 + s.y2 ≤ R2 → s.iterations < maxIter →
      s.steps + 1 ≤ (normalLoop x0 y0 R2 maxIter pc fuel s).steps := by
  intro fuel
  cases fuel with
  | zero => intro s h; omega
  | succ f =>
    intro s hf hle hit
    simp only [normalLoop, if_pos (And.intro hle hit)]
    split_ifs with h2 h3 h4
    · exact le_of_eq rfl
    · refine le_trans (le_of_eq ?_) (normalLoop_steps_mono x0 y0 R2 maxIter pc f _)
      rfl
    · refine le_trans (le_of_eq ?_) (normalLoop_steps_mono x0 y0 R2 maxIter pc f _)
      rfl
    · refine le_trans (le_of_eq ?_) (normalLoop_steps_mono x0 y0 R2 maxIter pc f _)
      rfl

lemma normalLoop_two (x0 y0 R2 : ℚ) (maxIter : ℕ) (pc : Bool)
    (fuel : ℕ) (s : OrbitState) (hf : 1 ≤ fuel)
    (hc1 : s.x2 + s.y2 ≤ R2) (hc2 : s.iterations < maxIter)
    (hne : ¬((orbitStep x0 y0 s).x = s.xOld ∧ (orbitStep x0 y0 s).y = s.yOld))
    (hc3 : (orbitStep x0 y0 s).x2 + (orbitStep x0 y0 s).y2 ≤ R2)
    (hc4 : s.iterations + 1 < maxIter) :
    s.steps + 2 ≤ (normalLoop x0 y0 R2 maxIter pc (fuel + 1) s).steps := by
  simp only [normalLoop]
  rw [if_pos (And.intro hc1 hc2)]
  split_ifs with hpc hq
  · refine le_trans ?_ (normalLoop_one_more x0 y0 R2 maxIter pc fuel _ hf ?_ ?_)
    · show s.steps + 2 ≤ s.steps + 1 + 1
      omega
    · exact hc3
    · exact hc4
  · refine le_trans ?_ (normalLoop_one_more x0 y0 R2 maxIter pc fuel _ hf ?_ ?_)
    · show s.steps + 2 ≤ s.steps + 1 + 1
      omega
    · exact hc3
    · exact hc4
  · refine le_trans ?_ (normalLoop_one_more x0 y0 R2 maxIter pc fuel _ hf ?_ ?_)
    · show s.steps + 2 ≤ s.steps + 1 + 1
      omega
    · exact hc3
    · exact hc4

lemma normalLoop_iterations_le (x0 y0 R2 : ℚ) (maxIter : ℕ) (pc : Bool) :
    ∀ (fuel : ℕ) (s : OrbitState), s.iterations ≤ maxIter →
      (normalLoop x0 y0 R2 maxIter pc fuel s).iterations ≤ maxIter := by
  intro fuel
  induction fuel with
  | zero => intro s h; exact h
  | succ f ih =>
    intro s h
    simp only [normalLoop]
    split_ifs with h1 h2 h3 h4
    · exact le_of_eq rfl
    · exact ih _ (by show s.iterations + 1 ≤ maxIter; omega)
    · exact ih _ (by show s.iterations + 1 ≤ maxIter; omega)
    · exact ih _ (by show s.iterations + 1 ≤ maxIter; omega)
    · exact h

lemma normalLoop_exit (x0 y0 R2 : ℚ) (maxIter : ℕ) (pc : Bool) :
    ∀ (fuel : ℕ) (s : OrbitState), maxIter ≤ fuel + s.iterations →
      (normalLoop x0 y0 R2 maxIter pc fuel s).iterations < maxIter →
      R2 < (normalLoop x0 y0 R2 maxIter pc fuel s).x2 +
        (normalLoop x0 y0 R2 maxIter pc fuel s).y2 := by
  intro fuel
  induction fuel with
  | zero =>
    intro s hf hlt
    simp only [normalLoop] at hlt
    exact absurd hlt (by omega)
  | succ f ih =>
    intro s hf hlt
    simp only [normalLoop] at hlt ⊢
    split_ifs at hlt ⊢ with h1 h2 h3 h4
    · exact absurd hlt (lt_irrefl maxIter)
    · exact ih _ (by show maxIter ≤ f + (s.iterations + 1); omega) hlt
    · exact ih _ (by show maxIter ≤ f + (s.iterations + 1); omega) hlt
    · exact ih _ (by show maxIter ≤ f + (s.iterations + 1); omega) hlt
    · rcases (not_and_or.mp h1) with h | h
      · exact lt_of_not_le h
      · exact absurd hlt h

lemma accLoop_iterations_le (x0 y0 R2 : ℚ) (maxIter : ℕ) (pc : Bool) :
    ∀ (fuel : ℕ) (s : OrbitState), s.iterations + fuel ≤ maxIter →
      (accLoop x0 y0 R2 maxIter pc fuel s).iterations ≤ maxIter := by
  intro fuel
  induction fuel with
  | zero =>
    intro s h
    show s.iterations ≤ maxIter
    omega
  | succ f ih =>
    intro s h
    simp only [accLoop]
    split_ifs with h1 h2 h3 h4
    · show s.iterations + 1 ≤ maxIter
      omega
    · exact le_of_eq rfl
    · exact ih _ (by show s.iterations + 1 + f ≤ maxIter; omega)
    · exact ih _ (by show s.iterations + 1 + f ≤ maxIter; omega)
    · exact ih _ (by show s.iterations + 1 + f ≤ maxIter; omega)

lemma accLoop_exit (x0 y0 R2 : ℚ) (maxIter : ℕ) (pc : Bool) :
    ∀ (fuel : ℕ) (s : OrbitState), maxIter ≤ fuel + s.iterations →
      (accLoop x0 y0 R2 maxIter pc fuel s).iterations < maxIter →
      R2 ≤ (accLoop x0 y0 R2 maxIter pc fuel s).x2 +
        (accLoop x0 y0 R2 maxIter pc fuel s).y2 := by
  intro fuel
  induction fuel with
  | zero =>
    intro s hf hlt
    simp only [accLoop] at hlt
    exact absurd hlt (by omega)
  | succ f ih =>
    intro s hf hlt
    simp only [accLoop] at hlt ⊢
    split_ifs at hlt ⊢ with h1 h2 h3 h4
    · exact h1
    · exact absurd hlt (lt_irrefl maxIter)
    · exact ih _ (by show maxIter ≤ f + (s.iterations + 1); omega) hlt
    · exact ih _ (by show maxIter ≤ f + (s.iterations + 1); omega) hlt
    · exact ih _ (by show maxIter ≤ f + (s.iterations + 1); omega) hlt

/-! ## Properties of the border scans -/

lemma intRange_eq_cons {a b : ℤ} (h : a < b) :
    intRange a b = a :: intRange (a + 1) b := by
  unfold intRange
  have hn : (b - a).toNat = (b - (a + 1)).toNat + 1 := by omega
  rw [hn, List.range_succ_eq_map, List.map_cons, List.map_map]
  refine congrArg₂ _ (by simp) (List.map_congr_left ?_)
  intro k hk
  simp only [Function.comp_apply]
  push_cast
  ring

lemma mem_intRange {a b j : ℤ} : j ∈ intRange a b ↔ a ≤ j ∧ j < b := by
  unfold intRange
  simp only [List.mem_map, List.mem_range]
  constructor
  · rintro ⟨k, hk, rfl⟩
    omega
  · intro h
    exact ⟨(j - a).toNat, by omega, by omega⟩

lemma nqTopBottom_foldl (c : Config) (q : QuadTree) (ref : Cell) :
    ∀ (L : List ℤ) (st : ScanSt), st.border = some ref →
      (L.foldl (nqTopBottom c q) st).border = some ref ∧
      (L.foldl (nqTopBottom c q) st).split =
        (st.split || L.any (fun i =>
          decide (ref ≠ (c.calc i q.tl.2).1) ||
          decide (ref ≠ (c.calc i (q.br.2 - 1)).1))) := by
  intro L
  induction L with
  | nil => intro st hb; simpa using hb
  | cons i L ih =>
    intro st hb
    rw [List.foldl_cons]
    have hstep : nqTopBottom c q st i =
        { split := st.split || decide (ref ≠ (c.calc i q.tl.2).1) ||
            decide (ref ≠ (c.calc i (q.br.2 - 1)).1),
          border := some ref,
          buf := writePx (writePx st.buf q.tl.2 i (c.calc i q.tl.2).1)
            (q.br.2 - 1) i (c.calc i (q.br.2 - 1)).1,
          trace := st.trace ++ [(q.tl.2, i), (q.br.2 - 1, i)] } := by
      simp only [nqTopBottom, hb]
    obtain ⟨hb', hs'⟩ := ih (nqTopBottom c q st i) (by rw [hstep])
    refine ⟨hb', ?_⟩
    rw [hs', hstep]
    simp [Bool.or_assoc]

lemma nqLeftRight_foldl (c : Config) (q : QuadTree) :
    ∀ (L : List ℤ) (st : ScanSt),
      (L.foldl (nqLeftRight c q) st).border = st.border ∧
      (L.foldl (nqLeftRight c q) st).split =
        (st.split || L.any (fun j =>
          decide (st.border ≠ some (c.calc q.tl.1 j).1) ||
          decide (st.border ≠ some (c.calc (q.br.1 - 1) j).1))) := by
  intro L
  induction L with
  | nil => intro st; simp
  | cons j L ih =>
    intro st
    rw [List.foldl_cons]
    obtain ⟨hb', hs'⟩ := ih (nqLeftRight c q st j)
    have hbj : (nqLeftRight c q st j).border = st.border := rfl
    refine ⟨by rw [hb', hbj], ?_⟩
    rw [hs', hbj]
    have hsj : (nqLeftRight c q st j).split =
        (st.split || decide (st.border ≠ some (c.calc q.tl.1 j).1) ||
          decide (st.border ≠ some (c.calc (q.br.1 - 1) j).1)) := rfl
    rw [hsj]
    simp [Bool.or_assoc]

lemma aqTopBottom_foldl (c : Config) (q : QuadTree) (ref : Cell) :
    ∀ (L : List ℤ) (st : AccScanSt), st.borderSet = true → st.border = ref →
      (L.foldl (aqTopBottom c q) st).border = ref ∧
      (L.foldl (aqTopBottom c q) st).split =
        (st.split || L.any (fun i =>
          (decide (q.cols ≥ 3) && decide (q.rows ≥ 3) &&
            decide (ref ≠ (c.accCalc i q.tl.2).1)) ||
          (decide (q.cols ≥ 3) && decide (q.rows ≥ 3) &&
            decide (ref ≠ (c.accCalc i (q.br.2 - 1)).1)))) := by
  intro L
  induction L with
  | nil => intro st hbs hb; simpa using hb
  | cons i L ih =>
    intro st hbs hb
    rw [List.foldl_cons]
    have hstep : aqTopBottom c q st i =
        { split := st.split ||
            (decide (q.cols ≥ 3) && decide (q.rows ≥ 3) &&
              decide (ref ≠ (c.accCalc i q.tl.2).1)) ||
            (decide (q.cols ≥ 3) && decide (q.rows ≥ 3) &&
              decide (ref ≠ (c.accCalc i (q.br.2 - 1)).1)),
          borderSet := true, border := ref,
          buf := writePx (writePx st.buf q.tl.2 i (c.accCalc i q.tl.2).1)
            (q.br.2 - 1) i (c.accCalc i (q.br.2 - 1)).1,
          trace := st.trace ++ [(q.tl.2, i), (q.br.2 - 1, i)] } := by
      simp only [aqTopBottom, hbs, hb, if_true]
    obtain ⟨hb1, hs1⟩ := ih (aqTopBottom c q st i) (by rw [hstep]) (by rw [hstep])
    refine ⟨hb1, ?_⟩
    rw [hs1, hstep]
    simp [Bool.or_assoc]

lemma aqLeftRight_foldl (c : Config) (q : QuadTree) :
    ∀ (L : List ℤ) (st : AccScanSt),
      (L.foldl (aqLeftRight c q) st).border = st.border ∧
      (L.foldl (aqLeftRight c q) st).split =
        (st.split || L.any (fun j =>
          (decide (q.cols ≥ 3) && decide (q.rows ≥ 3) &&
            decide (st.border ≠ (c.accCalc q.tl.1 j).1)) ||
          (decide (q.cols ≥ 3) && decide (q.rows ≥ 3) &&
            decide (st.border ≠ (c.accCalc (q.br.1 - 1) j).1)))) := by
  intro L
  induction L with
  | nil => intro st; simp
  | cons j L ih =>
    intro st
    rw [List.foldl_cons]
    obtain ⟨hb1, hs1⟩ := ih (aqLeftRight c q st j)
    have hbj : (aqLeftRight c q st j).border = st.border := rfl
    refine ⟨by rw [hb1, hbj], ?_⟩
    rw [hs1, hbj]
    have hsj : (aqLeftRight c q st j).split =
        (st.split ||
          (decide (q.cols ≥ 3) && decide (q.rows ≥ 3) &&
            decide (st.border ≠ (c.accCalc q.tl.1 j).1)) ||
          (decide (q.cols ≥ 3) && decide (q.rows ≥ 3) &&
            decide (st.border ≠ (c.accCalc (q.br.1 - 1) j).1))) := rfl
    rw [hsj]
    simp [Bool.or_assoc]

/-- Membership characterisation of the scanned border coordinates. -/
lemma mem_scannedCoords {q : QuadTree} {p : ℤ × ℤ} :
    p ∈ scannedCoords q ↔
      (((p.1 = q.tl.2 ∨ p.1 = q.br.2 - 1) ∧ q.tl.1 ≤ p.2 ∧ p.2 < q.br.1) ∨
       ((p.2 = q.tl.1 ∨ p.2 = q.br.1 - 1) ∧ q.tl.2 ≤ p.1 ∧ p.1 < q.br.2)) := by
  obtain ⟨pr, pc⟩ := p
  unfold scannedCoords
  simp only [List.mem_append, List.mem_flatten, List.mem_map]
  constructor
  · rintro (⟨l, ⟨i, hi, rfl⟩, hl⟩ | ⟨l, ⟨j, hj, rfl⟩, hl⟩)
    · rw [mem_intRange] at hi
      simp only [List.mem_cons, List.not_mem_nil, or_false, Prod.mk.injEq] at hl
      omega
    · rw [mem_intRange] at hj
      simp only [List.mem_cons, List.not_mem_nil, or_false, Prod.mk.injEq] at hl
      omega
  · rintro (⟨hr, hc1, hc2⟩ | ⟨hc, hr1, hr2⟩)
    · refine Or.inl ⟨[(q.tl.2, pc), (q.br.2 - 1, pc)], ⟨pc, ?_, rfl⟩, ?_⟩
      · rw [mem_intRange]; omega
      · rcases hr with h | h <;> subst h <;> simp
    · refine Or.inr ⟨[(pr, q.tl.1), (pr, q.br.1 - 1)], ⟨pr, ?_, rfl⟩, ?_⟩
      · rw [mem_intRange]; omega
      · rcases hc with h | h <;> subst h <;> simp

lemma zeroBuf_ok : BufOk zeroBuf := fun _ _ => le_refl 0

lemma castCell_fst_nonneg (v : Cell) : 0 ≤ (castCell v).1 :=
  Int.emod_nonneg _ (by norm_num)

lemma writePx_ok {b : Buffer} (hb : BufOk b) (r c : ℤ) (v : Cell) :
    BufOk (writePx b r c v) := by
  intro i j
  unfold writePx
  split_ifs
  · exact castCell_fst_nonneg v
  · exact hb i j

lemma cell_ne_sentinel {v : Cell} (h : 0 ≤ v.1) : v ≠ ((-1, -1, -1) : Cell) := by
  intro he
  rw [he] at h
  simp at h

lemma foldl_preserves {α : Type} (P : α → Prop) (f : α → ℤ → α)
    (hstep : ∀ a i, P a → P (f a i)) :
    ∀ (L : List ℤ) (a : α), P a → P (L.foldl f a) := by
  intro L
  induction L with
  | nil => intro a ha; exact ha
  | cons i L ih => intro a ha; exact ih _ (hstep a i ha)

lemma mixedScanQt_buf_ok (c : Config) (q : QuadTree) {buf : Buffer}
    (hb : BufOk buf) : BufOk (mixedScanQt c q buf).2.2.1 := by
  unfold mixedScanQt
  split_ifs
  · exact hb
  · have h1 : ∀ (st : MixedSt), BufOk st.buf →
        ∀ i, BufOk ((mxTopBottom c q st i)).buf := by
      intro st hst i
      exact writePx_ok (writePx_ok hst _ _ _) _ _ _
    have h2 : ∀ (st : MixedSt), BufOk st.buf →
        ∀ j, BufOk ((mxLeftRight c q st j)).buf := by
      intro st hst j
      exact writePx_ok (writePx_ok hst _ _ _) _ _ _
    refine foldl_preserves (fun st : MixedSt => BufOk st.buf) _
      (fun a j ha => h2 a ha j) _ _
      (foldl_preserves (fun st : MixedSt => BufOk st.buf) _
        (fun a i ha => h1 a ha i) _ _ hb)

lemma fillArray_ok {q : QuadTree} {hgt wdt : ℤ} {buf buf2 : Buffer} {v : Cell}
    {bd : ℤ} (hb : BufOk buf)
    (hok : q.fillArray hgt wdt buf v bd = Except.ok buf2) : BufOk buf2 := by
  unfold QuadTree.fillArray at hok
  split_ifs at hok
  simp only [Except.ok.injEq] at hok
  subst hok
  intro i j
  simp only
  split_ifs
  · exact castCell_fst_nonneg v
  · exact hb i j

lemma normalMixedLoop_ok (c : Config) (hgt wdt : ℤ) :
    ∀ (fuel : ℕ) (queue : List QuadTree) (buf B : Buffer), BufOk buf →
      normalMixedLoop c hgt wdt fuel queue buf = some B → BufOk B := by
  intro fuel
  induction fuel with
  | zero =>
    intro queue buf B hb hB
    cases queue with
    | nil =>
      simp only [normalMixedLoop, Option.some.injEq] at hB
      rw [← hB]; exact hb
    | cons q rest => simp [normalMixedLoop] at hB
  | succ f ih =>
    intro queue buf B hb hB
    cases queue with
    | nil =>
      simp only [normalMixedLoop, Option.some.injEq] at hB
      rw [← hB]; exact hb
    | cons q rest =>
      simp only [normalMixedLoop] at hB
      split_ifs at hB
      · cases hsp : QuadTree.split q 1 with
        | ok cs =>
          rw [hsp] at hB
          exact ih _ _ _ (mixedScanQt_buf_ok c q hb) hB
        | error e =>
          rw [hsp] at hB
          simp at hB
      · cases hf : QuadTree.fillArray q hgt wdt (mixedScanQt c q buf).2.2.1
            (mixedScanQt c q buf).2.1 1 with
        | ok buf2 =>
          rw [hf] at hB
          exact ih _ _ _ (fillArray_ok (mixedScanQt_buf_ok c q hb) hf) hB
        | error e =>
          rw [hf] at hB
          simp at hB

lemma rowRasterGo_spec (c : Config) (row : ℤ) :
    ∀ (L : List ℤ) (buf : Buffer), BufOk buf →
      BufOk (rowRasterGo c row L buf) ∧
      (∀ j ∈ L, rowRasterGo c row L buf row j = castCell (c.calc j row).1) ∧
      (∀ i j : ℤ, i ≠ row ∨ j ∉ L → rowRasterGo c row L buf i j = buf i j) := by
  intro L
  induction L with
  | nil =>
    intro buf hb
    exact ⟨hb, by simp, fun i j h => rfl⟩
  | cons j0 rest ih =>
    intro buf hb
    have hguard : buf row j0 ≠ ((-1, -1, -1) : Cell) := cell_ne_sentinel (hb row j0)
    have hstep : rowRasterGo c row (j0 :: rest) buf =
        rowRasterGo c row rest (writePx buf row j0 (c.calc j0 row).1) := by
      simp only [rowRasterGo, if_pos hguard]
    obtain ⟨hok, hin, hout⟩ := ih (writePx buf row j0 (c.calc j0 row).1)
      (writePx_ok hb _ _ _)
    rw [hstep]
    refine ⟨hok, ?_, ?_⟩
    · intro j hj
      by_cases hjr : j ∈ rest
      · exact hin j hjr
      · have hj0 : j = j0 := by
          rcases List.mem_cons.mp hj with h | h
          · exact h
          · exact absurd h hjr
        subst hj0
        rw [hout row j (Or.inr hjr)]
        unfold writePx
        rw [if_pos ⟨rfl, rfl⟩]
    · intro i j h
      rcases h with h | h
      · rw [hout i j (Or.inl h)]
        unfold writePx
        rw [if_neg (by tauto)]
      · have hnr : j ∉ rest := fun hc => h (List.mem_cons.mpr (Or.inr hc))
        have hn0 : j ≠ j0 := fun hc => h (List.mem_cons.mpr (Or.inl hc))
        rw [hout i j (Or.inr hnr)]
        unfold writePx
        rw [if_neg (by tauto)]

lemma normalGenRaster_spec (c : Config) (w : ℕ) :
    ∀ (L : List ℤ) (buf : Buffer), BufOk buf →
      BufOk (L.foldl (fun b i => rowRaster c w i b) buf) ∧
      (∀ i ∈ L, ∀ j : ℤ, 0 ≤ j → j < (w : ℤ) →
        (L.foldl (fun b i => rowRaster c w i b) buf) i j =
          castCell (c.calc j i).1) ∧
      (∀ i j : ℤ, i ∉ L →
        (L.foldl (fun b i => rowRaster c w i b) buf) i j = buf i j) := by
  intro L
  induction L with
  | nil =>
    intro buf hb
    exact ⟨hb, by simp, fun i j h => rfl⟩
  | cons i0 rest ih =>
    intro buf hb
    obtain ⟨hok0, hin0, hout0⟩ := rowRasterGo_spec c i0 (intRange 0 w) buf hb
    obtain ⟨hok, hin, hout⟩ := ih (rowRaster c w i0 buf) hok0
    rw [List.foldl_cons]
    refine ⟨hok, ?_, ?_⟩
    · intro i hi j hj0 hjw
      by_cases hir : i ∈ rest
      · exact hin i hir j hj0 hjw
      · have hi0 : i = i0 := by
          rcases List.mem_cons.mp hi with h | h
          · exact h
          · exact absurd h hir
        subst hi0
        rw [hout i j hir]
        exact hin0 j (mem_intRange.mpr (by omega))
    · intro i j hi
      have hnr : i ∉ rest := fun hc => hi (List.mem_cons.mpr (Or.inr hc))
      have hn0 : i ≠ i0 := fun hc => hi (List.mem_cons.mpr (Or.inl hc))
      rw [hout i j hnr]
      exact hout0 i j (Or.inl hn0)

lemma normalGenRaster_get (c : Config) (hgt w : ℕ) {buf : Buffer}
    (hb : BufOk buf) :
    ∀ i j : ℤ, 0 ≤ i → i < (hgt : ℤ) → 0 ≤ j → j < (w : ℤ) →
      normalGenRaster c hgt w buf i j = castCell (c.calc j i).1 := by
  intro i j hi0 hih hj0 hjw
  obtain ⟨hok, hin, hout⟩ := normalGenRaster_spec c w (intRange 0 hgt) buf hb
  exact hin i (mem_intRange.mpr (by omega)) j hj0 hjw


/-! ## Claims -/

/-- Claim C1, counterexample: the rendering strategies do not always leave
identical per-pixel buffer contents for a fixed configuration.  With
`cfgSplitDemo` on an 8×8 image, the Normal plain-quadtree strategy leaves
pixel `(1, 1)` at the initial zero value (it lands in a 1×1 leaf region
whose scan returns the colour without writing it and whose
`fill_array(boundary=1)` writes an empty slice), while the Normal
pure-raster strategy computes `(2, 0, 0)` there. -/
theorem plain_vs_raster_counterexample :
    (normalGenPlain cfgSplitDemo 8 8 20).map (fun B => B 1 1) =
      some ((0, 0, 0) : Cell) ∧
    normalGenRasterFull cfgSplitDemo 8 8 1 1 = ((2, 0, 0) : Cell) ∧
    ((0, 0, 0) : Cell) ≠ ((2, 0, 0) : Cell) := by
  refine ⟨of_decide_eq_true (by with_unfolding_all rfl), ?_, by decide⟩
  unfold normalGenRasterFull
  rw [normalGenRaster_get cfgSplitDemo 8 8 zeroBuf_ok 1 1
    (by decide) (by decide) (by decide) (by decide)]
  exact of_decide_eq_true (by with_unfolding_all rfl)

/-- Claim C1 (amended): in the Normal implementation, the mixed
quadtree+raster strategy and the pure-raster strategy produce identical
per-pixel buffer contents for every configuration: the final `row_raster`
sweep recomputes and overwrites every in-bounds pixel (its skip test
compares cells against a `[-1,-1,-1]` sentinel that no `uint8` cell can
equal), so the quadtree phase's writes are all replaced by the pure-raster
colours.  The plain-quadtree strategy, by contrast, can differ from the
raster baseline by leaving 1×1 leaf pixels unwritten. -/
theorem mixed_raster_strategy_eq_pure_raster (c : Config) (hgt w : ℕ)
    (fuel : ℕ) (B : Buffer) (hB : normalGenMixed c hgt w fuel = some B) :
    ∀ i j : ℤ, 0 ≤ i → i < (hgt : ℤ) → 0 ≤ j → j < (w : ℤ) →
      B i j = normalGenRasterFull c hgt w i j := by
  unfold normalGenMixed at hB
  cases hsp : QuadTree.split ⟨(0, 0), ((w : ℤ), (hgt : ℤ))⟩ 0 with
  | error e => rw [hsp] at hB; simp at hB
  | ok cs =>
    rw [hsp] at hB
    rw [Option.map_eq_some'] at hB
    obtain ⟨b1, hb1, hBeq⟩ := hB
    have hok1 : BufOk b1 :=
      normalMixedLoop_ok c (hgt : ℤ) (w : ℤ) fuel cs zeroBuf b1 zeroBuf_ok hb1
    intro i j hi0 hih hj0 hjw
    rw [← hBeq]
    unfold normalGenRasterFull
    rw [normalGenRaster_get c hgt w hok1 i j hi0 hih hj0 hjw,
        normalGenRaster_get c hgt w zeroBuf_ok i j hi0 hih hj0 hjw]

/-- Witness for `mixed_raster_strategy_eq_pure_raster` on a concrete 2×2
render with `cfgConstColor`. -/
theorem mixed_raster_strategy_eq_pure_raster_witness :
    (normalGenMixed cfgConstColor 2 2 10).getD zeroBuf 0 0 =
      normalGenRasterFull cfgConstColor 2 2 0 0 :=
  mixed_raster_strategy_eq_pure_raster cfgConstColor 2 2 10
    ((normalGenMixed cfgConstColor 2 2 10).getD zeroBuf)
    (by with_unfolding_all rfl) 0 0
    (le_refl 0) (by decide) (le_refl 0) (by decide)

/-- Claim C2: coverage fails for the Normal plain-quadtree strategy.  On an
8×8 image with `cfgSplitDemo`, the child region `[0,4)×[0,4)` is flagged for
split (its border colours disagree and both dimensions exceed 3); its
`split()` with the default boundary 1 produces four 1×1 leaves at pixels
`(1,1)`, `(1,2)`, `(2,1)`, `(2,2)`; `calculate_quadtree`'s 1×1 branch
returns the point's colour without writing it, and the driver's
`fill_array(self.pixels, border)` with the default boundary 1 writes an
empty slice — so rendering completes with those four pixels still at the
buffer's initial value, although the evaluator computes the (different)
colour `(2, 0, 0)` for each of them. -/
theorem plain_quadtree_pixel_left_unwritten :
    (normalGenPlain cfgSplitDemo 8 8 20).map
        (fun B => (B 1 1, B 1 2, B 2 1, B 2 2)) =
      some (((0, 0, 0) : Cell), ((0, 0, 0) : Cell),
            ((0, 0, 0) : Cell), ((0, 0, 0) : Cell)) ∧
    pxColor cfgSplitDemo (1, 1) = ((2, 0, 0) : Cell) ∧
    pxColor cfgSplitDemo (1, 2) = ((2, 0, 0) : Cell) ∧
    pxColor cfgSplitDemo (2, 1) = ((2, 0, 0) : Cell) ∧
    pxColor cfgSplitDemo (2, 2) = ((2, 0, 0) : Cell) ∧
    ((2, 0, 0) : Cell) ≠ ((0, 0, 0) : Cell) ∧
    zeroBuf 1 1 = ((0, 0, 0) : Cell) :=
  ⟨of_decide_eq_true (by with_unfolding_all rfl),
   of_decide_eq_true (by with_unfolding_all rfl),
   of_decide_eq_true (by with_unfolding_all rfl),
   of_decide_eq_true (by with_unfolding_all rfl),
   of_decide_eq_true (by with_unfolding_all rfl),
   by decide, rfl⟩

/-- Claim C3: for every point satisfying the main-cardioid/period-2-bulb
inequality `q*(q + x0 - 0.25) ≤ 0.25*y0^2` with `q = (x0-0.25)^2 + y0^2`,
both evaluators return `in_set = true` with iteration count exactly
`max_iterations`, and perform zero orbit-loop iterations. -/
theorem main_body_short_circuit (x0 y0 : ℚ) (maxIter : ℕ) (R : ℚ)
    (smooth : Bool) (cs : ColorScheme) (pc : Bool)
    (h : ((x0 - 1/4) * (x0 - 1/4) + y0 * y0) *
          (((x0 - 1/4) * (x0 - 1/4) + y0 * y0) + x0 - 1/4) ≤ 1/4 * (y0 * y0)) :
    ((normalCalculate x0 y0 maxIter R smooth cs pc).inSet = true ∧
     (normalCalculate x0 y0 maxIter R smooth cs pc).iterations = maxIter ∧
     (normalCalculate x0 y0 maxIter R smooth cs pc).orbitSteps = 0) ∧
    ((accCalculate x0 y0 maxIter R smooth cs pc).inSet = true ∧
     (accCalculate x0 y0 maxIter R smooth cs pc).iterations = maxIter ∧
     (accCalculate x0 y0 maxIter R smooth cs pc).orbitSteps = 0) := by
  have hb : inMainBody x0 y0 = true := by
    simp only [inMainBody]
    exact decide_eq_true h
  simp [normalCalculate, accCalculate, hb]

/-- Witness for `main_body_short_circuit` at the origin. -/
theorem main_body_short_circuit_witness :
    ((normalCalculate 0 0 7 2 false (fun _ => (0, 0, 0)) true).inSet = true ∧
     (normalCalculate 0 0 7 2 false (fun _ => (0, 0, 0)) true).iterations = 7 ∧
     (normalCalculate 0 0 7 2 false (fun _ => (0, 0, 0)) true).orbitSteps = 0) ∧
    ((accCalculate 0 0 7 2 false (fun _ => (0, 0, 0)) true).inSet = true ∧
     (accCalculate 0 0 7 2 false (fun _ => (0, 0, 0)) true).iterations = 7 ∧
     (accCalculate 0 0 7 2 false (fun _ => (0, 0, 0)) true).orbitSteps = 0) :=
  main_body_short_circuit 0 0 7 2 false (fun _ => (0, 0, 0)) true
    (of_decide_eq_true (by with_unfolding_all rfl))

/-- Claim C4, counterexample: a 3×3 region whose scanned border contains a
colour disagreeing with the first evaluated border colour is not flagged
for split by the Normal plain scanner: the source tests
`split and cols > 3 and rows > 3`, so a region with both dimensions equal
to 3 is never split, contrary to the claimed `≥ 3` threshold. -/
theorem plain_split_threshold_counterexample :
    (normalScanQt cfgSplitDemo ⟨(0, 0), (3, 3)⟩ zeroBuf).1 = false ∧
    (0, 1) ∈ scannedCoords ⟨(0, 0), (3, 3)⟩ ∧
    pxColor cfgSplitDemo (0, 1) ≠ pxColor cfgSplitDemo (0, 0) ∧
    QuadTree.cols ⟨(0, 0), (3, 3)⟩ = 3 ∧ QuadTree.rows ⟨(0, 0), (3, 3)⟩ = 3 :=
  of_decide_eq_true (by with_unfolding_all rfl)

/-- Claim C4 (amended): for every scanned region (at least 1×1 and not the
1×1 leaf case), the Normal plain scanner reports split = true iff some
scanned border pixel's colour differs from the first evaluated border
colour AND both dimensions are strictly greater than 3 (i.e. at least 4),
while the accelerated plain scanner reports split = true iff some scanned
border pixel's colour differs from the first border colour AND both
dimensions are at least 3. -/
theorem plain_split_characterisation (c : Config) (q : QuadTree)
    (h1 : 1 ≤ q.cols) (h2 : 1 ≤ q.rows) (hno : ¬(q.rows = 1 ∧ q.cols = 1))
    (buf buf2 : Buffer) :
    ((normalScanQt c q buf).1 = true ↔
      (borderDisagrees c q ∧ 3 < q.cols ∧ 3 < q.rows)) ∧
    ((accScanQt c q buf2).1 = true ↔
      (accBorderDisagrees c q ∧ 3 ≤ q.cols ∧ 3 ≤ q.rows)) := by
  have hlt1 : q.tl.1 < q.br.1 := by
    unfold QuadTree.cols at h1; omega
  have hlt2 : q.tl.2 < q.br.2 := by
    unfold QuadTree.rows at h2; omega
  constructor
  · simp only [normalScanQt]
    rw [if_neg hno, intRange_eq_cons hlt1, List.foldl_cons]
    have hstep : nqTopBottom c q ⟨false, none, buf, []⟩ q.tl.1 =
        { split := false ||
            decide ((c.calc q.tl.1 q.tl.2).1 ≠ (c.calc q.tl.1 (q.br.2 - 1)).1),
          border := some (c.calc q.tl.1 q.tl.2).1,
          buf := writePx (writePx buf q.tl.2 q.tl.1 (c.calc q.tl.1 q.tl.2).1)
            (q.br.2 - 1) q.tl.1 (c.calc q.tl.1 (q.br.2 - 1)).1,
          trace := [] ++ [(q.tl.2, q.tl.1), (q.br.2 - 1, q.tl.1)] } := rfl
    obtain ⟨hb1, hs1⟩ := nqTopBottom_foldl c q (c.calc q.tl.1 q.tl.2).1
      (intRange (q.tl.1 + 1) q.br.1)
      (nqTopBottom c q ⟨false, none, buf, []⟩ q.tl.1) (by rw [hstep])
    obtain ⟨hb2, hs2⟩ := nqLeftRight_foldl c q (intRange q.tl.2 q.br.2)
      ((intRange (q.tl.1 + 1) q.br.1).foldl (nqTopBottom c q)
        (nqTopBottom c q ⟨false, none, buf, []⟩ q.tl.1))
    rw [hs2, hs1, hb1, hstep]
    simp only [Bool.and_eq_true, Bool.or_eq_true, List.any_eq_true,
      decide_eq_true_eq, ne_eq, Option.some.injEq, Bool.false_or]
    unfold borderDisagrees pxColor
    constructor
    · rintro ⟨⟨hd, hc⟩, hr⟩
      refine ⟨?_, hc, hr⟩
      rcases hd with (hd | ⟨i, hi, hd | hd⟩) | ⟨j, hj, hd | hd⟩
      · exact ⟨(q.br.2 - 1, q.tl.1),
          mem_scannedCoords.mpr (Or.inl ⟨Or.inr rfl, by omega⟩),
          fun h => hd h.symm⟩
      · rw [mem_intRange] at hi
        exact ⟨(q.tl.2, i), mem_scannedCoords.mpr (Or.inl ⟨Or.inl rfl, by omega⟩),
          fun h => hd h.symm⟩
      · rw [mem_intRange] at hi
        exact ⟨(q.br.2 - 1, i),
          mem_scannedCoords.mpr (Or.inl ⟨Or.inr rfl, by omega⟩),
          fun h => hd h.symm⟩
      · rw [mem_intRange] at hj
        exact ⟨(j, q.tl.1), mem_scannedCoords.mpr (Or.inr ⟨Or.inl rfl, by omega⟩),
          fun h => hd h.symm⟩
      · rw [mem_intRange] at hj
        exact ⟨(j, q.br.1 - 1),
          mem_scannedCoords.mpr (Or.inr ⟨Or.inr rfl, by omega⟩),
          fun h => hd h.symm⟩
    · rintro ⟨⟨p, hp, hd⟩, hc, hr⟩
      refine ⟨⟨?_, hc⟩, hr⟩
      rw [mem_scannedCoords] at hp
      obtain ⟨pr, pc⟩ := p
      simp only at hd hp
      rcases hp with ⟨hrow, hi1, hi2⟩ | ⟨hcol, hj1, hj2⟩
      · by_cases hfirst : pc = q.tl.1
        · subst hfirst
          rcases hrow with hrow | hrow
          · subst hrow
            exact absurd rfl hd
          · subst hrow
            exact Or.inl (Or.inl (fun h => hd h.symm))
        · rcases hrow with hrow | hrow <;> subst hrow
          · exact Or.inl (Or.inr ⟨pc, mem_intRange.mpr (by omega),
              Or.inl (fun h => hd h.symm)⟩)
          · exact Or.inl (Or.inr ⟨pc, mem_intRange.mpr (by omega),
              Or.inr (fun h => hd h.symm)⟩)
      · rcases hcol with hcol | hcol <;> subst hcol
        · exact Or.inr ⟨pr, mem_intRange.mpr (by omega),
            Or.inl (fun h => hd h.symm)⟩
        · exact Or.inr ⟨pr, mem_intRange.mpr (by omega),
            Or.inr (fun h => hd h.symm)⟩
  · simp only [accScanQt]
    rw [if_neg hno, intRange_eq_cons hlt1, List.foldl_cons]
    have hstep : aqTopBottom c q ⟨false, false, castCell (-1, -1, -1), buf2, []⟩ q.tl.1 =
        { split := false ||
            (decide (q.cols ≥ 3) && decide (q.rows ≥ 3) &&
              decide ((c.accCalc q.tl.1 q.tl.2).1 ≠ (c.accCalc q.tl.1 (q.br.2 - 1)).1)),
          borderSet := true, border := (c.accCalc q.tl.1 q.tl.2).1,
          buf := writePx (writePx buf2 q.tl.2 q.tl.1 (c.accCalc q.tl.1 q.tl.2).1)
            (q.br.2 - 1) q.tl.1 (c.accCalc q.tl.1 (q.br.2 - 1)).1,
          trace := [] ++ [(q.tl.2, q.tl.1), (q.br.2 - 1, q.tl.1)] } := rfl
    obtain ⟨hb1, hs1⟩ := aqTopBottom_foldl c q (c.accCalc q.tl.1 q.tl.2).1
      (intRange (q.tl.1 + 1) q.br.1)
      (aqTopBottom c q ⟨false, false, castCell (-1, -1, -1), buf2, []⟩ q.tl.1)
      (by rw [hstep]) (by rw [hstep])
    obtain ⟨hb2, hs2⟩ := aqLeftRight_foldl c q (intRange q.tl.2 q.br.2)
      ((intRange (q.tl.1 + 1) q.br.1).foldl (aqTopBottom c q)
        (aqTopBottom c q ⟨false, false, castCell (-1, -1, -1), buf2, []⟩ q.tl.1))
    rw [hs2, hs1, hb1, hstep]
    simp only [Bool.and_eq_true, Bool.or_eq_true, List.any_eq_true,
      decide_eq_true_eq, ne_eq, ge_iff_le, Bool.false_or]
    unfold accBorderDisagrees accPxColor
    constructor
    · rintro ((⟨⟨hc, hr⟩, hd⟩ | ⟨i, hi, (⟨⟨hc, hr⟩, hd⟩ | ⟨⟨hc, hr⟩, hd⟩)⟩) |
        ⟨j, hj, (⟨⟨hc, hr⟩, hd⟩ | ⟨⟨hc, hr⟩, hd⟩)⟩)
      · exact ⟨⟨(q.br.2 - 1, q.tl.1),
          mem_scannedCoords.mpr (Or.inl ⟨Or.inr rfl, by omega⟩),
          fun h => hd h.symm⟩, hc, hr⟩
      · rw [mem_intRange] at hi
        exact ⟨⟨(q.tl.2, i), mem_scannedCoords.mpr (Or.inl ⟨Or.inl rfl, by omega⟩),
          fun h => hd h.symm⟩, hc, hr⟩
      · rw [mem_intRange] at hi
        exact ⟨⟨(q.br.2 - 1, i),
          mem_scannedCoords.mpr (Or.inl ⟨Or.inr rfl, by omega⟩),
          fun h => hd h.symm⟩, hc, hr⟩
      · rw [mem_intRange] at hj
        exact ⟨⟨(j, q.tl.1), mem_scannedCoords.mpr (Or.inr ⟨Or.inl rfl, by omega⟩),
          fun h => hd h.symm⟩, hc, hr⟩
      · rw [mem_intRange] at hj
        exact ⟨⟨(j, q.br.1 - 1),
          mem_scannedCoords.mpr (Or.inr ⟨Or.inr rfl, by omega⟩),
          fun h => hd h.symm⟩, hc, hr⟩
    · rintro ⟨⟨p, hp, hd⟩, hc, hr⟩
      rw [mem_scannedCoords] at hp
      obtain ⟨pr, pc⟩ := p
      simp only at hd hp
      rcases hp with ⟨hrow, hi1, hi2⟩ | ⟨hcol, hj1, hj2⟩
      · by_cases hfirst : pc = q.tl.1
        · subst hfirst
          rcases hrow with hrow | hrow
          · subst hrow
            exact absurd rfl hd
          · subst hrow
            exact Or.inl (Or.inl ⟨⟨hc, hr⟩, fun h => hd h.symm⟩)
        · rcases hrow with hrow | hrow <;> subst hrow
          · exact Or.inl (Or.inr ⟨pc, mem_intRange.mpr (by omega),
              Or.inl ⟨⟨hc, hr⟩, fun h => hd h.symm⟩⟩)
          · exact Or.inl (Or.inr ⟨pc, mem_intRange.mpr (by omega),
              Or.inr ⟨⟨hc, hr⟩, fun h => hd h.symm⟩⟩)
      · rcases hcol with hcol | hcol <;> subst hcol
        · exact Or.inr ⟨pr, mem_intRange.mpr (by omega),
            Or.inl ⟨⟨hc, hr⟩, fun h => hd h.symm⟩⟩
        · exact Or.inr ⟨pr, mem_intRange.mpr (by omega),
            Or.inr ⟨⟨hc, hr⟩, fun h => hd h.symm⟩⟩

/-- Witness for `plain_split_characterisation` on a concrete 3×3 region. -/
theorem plain_split_characterisation_witness :
    ((normalScanQt cfgSplitDemo ⟨(0, 0), (3, 3)⟩ zeroBuf).1 = true ↔
      (borderDisagrees cfgSplitDemo ⟨(0, 0), (3, 3)⟩ ∧
        3 < QuadTree.cols ⟨(0, 0), (3, 3)⟩ ∧ 3 < QuadTree.rows ⟨(0, 0), (3, 3)⟩)) ∧
    ((accScanQt cfgSplitDemo ⟨(0, 0), (3, 3)⟩ zeroBuf).1 = true ↔
      (accBorderDisagrees cfgSplitDemo ⟨(0, 0), (3, 3)⟩ ∧
        3 ≤ QuadTree.cols ⟨(0, 0), (3, 3)⟩ ∧ 3 ≤ QuadTree.rows ⟨(0, 0), (3, 3)⟩)) :=
  plain_split_characterisation cfgSplitDemo ⟨(0, 0), (3, 3)⟩
    (by decide) (by decide) (by decide) zeroBuf zeroBuf

/-- Claim C5: the border scan neither evaluates each border pixel exactly
once nor always writes each computed colour at the pixel's own coordinate.
On the region `[0,3)×[0,5)` with `cfgRightCol`, the Normal mixed scanner:
leaves the right-column border pixel `(row 1, col 2)` at the initial buffer
value although the scan computed colour `(1,0,0)` for it; writes that
colour at the transposed coordinate `(row 2, col 1)` instead (the source
writes `pixels[br[0]-1][j]`); and evaluates the corner pixel `(0,0)` twice
(once in the row loop and once in the column loop). -/
theorem mixed_scan_transposed_write :
    (1, 2) ∈ scannedCoords ⟨(0, 0), (3, 5)⟩ ∧
    (mixedScanQt cfgRightCol ⟨(0, 0), (3, 5)⟩ zeroBuf).2.2.1 1 2 = ((0, 0, 0) : Cell) ∧
    pxColor cfgRightCol (1, 2) = ((1, 0, 0) : Cell) ∧
    (mixedScanQt cfgRightCol ⟨(0, 0), (3, 5)⟩ zeroBuf).2.2.1 2 1 = ((1, 0, 0) : Cell) ∧
    (mixedScanQt cfgRightCol ⟨(0, 0), (3, 5)⟩ zeroBuf).2.2.2.count ((0, 0) : ℤ × ℤ) = 2 :=
  of_decide_eq_true (by with_unfolding_all rfl)

/-- Claim C6, counterexample: at the point `(1, 0)` with escape radius 1,
the squared magnitude after the first orbit iteration equals the squared
escape radius exactly, yet the Normal evaluator does not stop there: it
executes a second loop body and records 2 iterations (the `while` guard
`x2 + y2 <= escape_radius_squared` continues on equality). -/
theorem escape_equality_counterexample :
    (orbitStep 1 0 initOrbit).x2 + (orbitStep 1 0 initOrbit).y2 = 1 * 1 ∧
    (normalCalculate 1 0 5 1 false (fun _ => (0, 0, 0)) true).orbitSteps = 2 ∧
    (normalCalculate 1 0 5 1 false (fun _ => (0, 0, 0)) true).iterations = 2 :=
  of_decide_eq_true (by with_unfolding_all rfl)

/-- Claim C6 (amended): for any point outside the main body whose first
orbit value satisfies `|z1|^2 = R^2` exactly, the accelerated evaluator
stops at that step and records it as escaped (its test is
`x2 + y2 >= escape_radius_squared`), while the Normal evaluator treats
equality as not-yet-escaped and executes at least one further orbit
iteration (its `while` guard is `x2 + y2 <= escape_radius_squared`). -/
theorem escape_threshold_behaviour (x0 y0 R : ℚ) (maxIter : ℕ)
    (smooth : Bool) (cs : ColorScheme) (pc : Bool)
    (hmb : inMainBody x0 y0 = false) (hR : x0 * x0 + y0 * y0 = R * R)
    (hmax : 2 ≤ maxIter) :
    ((accCalculate x0 y0 maxIter R smooth cs pc).iterations = 1 ∧
     (accCalculate x0 y0 maxIter R smooth cs pc).orbitSteps = 1 ∧
     (accCalculate x0 y0 maxIter R smooth cs pc).inSet = false) ∧
    2 ≤ (normalCalculate x0 y0 maxIter R smooth cs pc).orbitSteps := by
  obtain ⟨m, rfl⟩ : ∃ m, maxIter = m + 2 := ⟨maxIter - 2, by omega⟩
  have hsum : (orbitStep x0 y0 initOrbit).x2 + (orbitStep x0 y0 initOrbit).y2 = R * R := by
    show (0 - 0 + x0) * (0 - 0 + x0) + (0 - 0 - 0 + y0) * (0 - 0 - 0 + y0) = R * R
    rw [← hR]; ring
  have hacc : accLoop x0 y0 (R * R) (m + 2) pc (m + 2) initOrbit =
      orbitStep x0 y0 initOrbit := by
    simp only [accLoop]
    rw [if_pos (le_of_eq hsum.symm)]
  constructor
  · simp only [accCalculate, hmb, Bool.false_eq_true, if_false, hacc]
    refine ⟨rfl, rfl, ?_⟩
    show decide ((orbitStep x0 y0 initOrbit).iterations = m + 2) = false
    exact decide_eq_false (by show (0 : ℕ) + 1 ≠ m + 2; omega)
  · have hne : ¬((orbitStep x0 y0 initOrbit).x = initOrbit.xOld ∧
        (orbitStep x0 y0 initOrbit).y = initOrbit.yOld) := by
      rintro ⟨hx, hy⟩
      have hx0 : x0 = 0 := by
        have h1 : (0 : ℚ) - 0 + x0 = 0 := hx
        linarith
      have hy0 : y0 = 0 := by
        have h1 : (0 : ℚ) - 0 - 0 + y0 = 0 := hy
        linarith
      rw [hx0, hy0] at hmb
      have h0 : inMainBody 0 0 = true := of_decide_eq_true (by with_unfolding_all rfl)
      simp [h0] at hmb
    simp only [normalCalculate, hmb, Bool.false_eq_true, if_false]
    show 2 ≤ (normalLoop x0 y0 (R * R) (m + 2) pc (m + 2) initOrbit).steps
    have hcond : initOrbit.x2 + initOrbit.y2 ≤ R * R ∧ initOrbit.iterations < m + 2 := by
      constructor
      · show (0 : ℚ) + 0 ≤ R * R
        simpa using mul_self_nonneg R
      · show 0 < m + 2
        omega
    have h2 := normalLoop_two x0 y0 (R * R) (m + 2) pc (m + 1) initOrbit
      (by omega) hcond.1 hcond.2 hne (le_of_eq hsum)
      (by show (0 : ℕ) + 1 < m + 2; omega)
    exact le_trans (by show (2 : ℕ) ≤ 0 + 2; omega) h2

/-- Witness for `escape_threshold_behaviour` at the point `(1, 0)` with
escape radius 1. -/
theorem escape_threshold_behaviour_witness :
    ((accCalculate 1 0 2 1 false (fun _ => (0, 0, 0)) true).iterations = 1 ∧
     (accCalculate 1 0 2 1 false (fun _ => (0, 0, 0)) true).orbitSteps = 1 ∧
     (accCalculate 1 0 2 1 false (fun _ => (0, 0, 0)) true).inSet = false) ∧
    2 ≤ (normalCalculate 1 0 2 1 false (fun _ => (0, 0, 0)) true).orbitSteps :=
  escape_threshold_behaviour 1 0 1 2 false (fun _ => (0, 0, 0)) true
    (of_decide_eq_true (by with_unfolding_all rfl))
    (of_decide_eq_true (by with_unfolding_all rfl)) (le_refl 2)

/-- Claim C7: for both evaluators, the distance estimate is defined (the
source computes `ln(|z|^2) * sqrt(|z|^2/|dz|^2)` rather than leaving the
`None`/placeholder value) iff the point escaped strictly before
`max_iterations`; equivalently iff the point is not classified in-set; and
an escaped result really left the loop through the escape test (final
`|z|^2` beyond the squared escape radius: strictly for the Normal loop,
non-strictly for the accelerated loop). -/
theorem distance_estimate_defined_iff (x0 y0 R : ℚ) (maxIter : ℕ)
    (smooth : Bool) (cs : ColorScheme) (pc : Bool) :
    (((normalCalculate x0 y0 maxIter R smooth cs pc).distanceEstimate.isSome = true ↔
        (normalCalculate x0 y0 maxIter R smooth cs pc).iterations < maxIter) ∧
     ((normalCalculate x0 y0 maxIter R smooth cs pc).inSet = false ↔
        (normalCalculate x0 y0 maxIter R smooth cs pc).iterations < maxIter) ∧
     ((normalCalculate x0 y0 maxIter R smooth cs pc).iterations < maxIter →
        R * R < (normalCalculate x0 y0 maxIter R smooth cs pc).zsq)) ∧
    (((accCalculate x0 y0 maxIter R smooth cs pc).distanceEstimate.isSome = true ↔
        (accCalculate x0 y0 maxIter R smooth cs pc).iterations < maxIter) ∧
     ((accCalculate x0 y0 maxIter R smooth cs pc).inSet = false ↔
        (accCalculate x0 y0 maxIter R smooth cs pc).iterations < maxIter) ∧
     ((accCalculate x0 y0 maxIter R smooth cs pc).iterations < maxIter →
        R * R ≤ (accCalculate x0 y0 maxIter R smooth cs pc).zsq)) := by
  by_cases hb : inMainBody x0 y0
  · constructor <;>
      simp [normalCalculate, accCalculate, hb]
  · have hmb : inMainBody x0 y0 = false := by
      simpa using hb
    constructor
    · simp only [normalCalculate, hmb, Bool.false_eq_true, if_false]
      have hle := normalLoop_iterations_le x0 y0 (R * R) maxIter pc maxIter
        initOrbit (by simp [initOrbit])
      by_cases hit : (normalLoop x0 y0 (R * R) maxIter pc maxIter initOrbit).iterations = maxIter
      · simp [hit]
      · have hlt : (normalLoop x0 y0 (R * R) maxIter pc maxIter initOrbit).iterations < maxIter := by
          omega
        have hexit := normalLoop_exit x0 y0 (R * R) maxIter pc maxIter initOrbit
          (by simp [initOrbit]) hlt
        simp [hit, hlt, hexit]
    · simp only [accCalculate, hmb, Bool.false_eq_true, if_false]
      have hle := accLoop_iterations_le x0 y0 (R * R) maxIter pc maxIter
        initOrbit (by simp [initOrbit])
      by_cases hit : (accLoop x0 y0 (R * R) maxIter pc maxIter initOrbit).iterations = maxIter
      · simp [hit]
      · have hlt : (accLoop x0 y0 (R * R) maxIter pc maxIter initOrbit).iterations < maxIter := by
          omega
        have hexit := accLoop_exit x0 y0 (R * R) maxIter pc maxIter initOrbit
          (by simp [initOrbit]) hlt
        simp [hit, hlt, hexit]

/-- Witness for `distance_estimate_defined_iff` at the escaping point
`(3, 0)`. -/
theorem distance_estimate_defined_iff_witness :
    (((normalCalculate 3 0 2 2 false (fun _ => (0, 0, 0)) true).distanceEstimate.isSome = true ↔
        (normalCalculate 3 0 2 2 false (fun _ => (0, 0, 0)) true).iterations < 2) ∧
     ((normalCalculate 3 0 2 2 false (fun _ => (0, 0, 0)) true).inSet = false ↔
        (normalCalculate 3 0 2 2 false (fun _ => (0, 0, 0)) true).iterations < 2) ∧
     ((normalCalculate 3 0 2 2 false (fun _ => (0, 0, 0)) true).iterations < 2 →
        (2 : ℚ) * 2 < (normalCalculate 3 0 2 2 false (fun _ => (0, 0, 0)) true).zsq)) ∧
    (((accCalculate 3 0 2 2 false (fun _ => (0, 0, 0)) true).distanceEstimate.isSome = true ↔
        (accCalculate 3 0 2 2 false (fun _ => (0, 0, 0)) true).iterations < 2) ∧
     ((accCalculate 3 0 2 2 false (fun _ => (0, 0, 0)) true).inSet = false ↔
        (accCalculate 3 0 2 2 false (fun _ => (0, 0, 0)) true).iterations < 2) ∧
     ((accCalculate 3 0 2 2 false (fun _ => (0, 0, 0)) true).iterations < 2 →
        (2 : ℚ) * 2 ≤ (accCalculate 3 0 2 2 false (fun _ => (0, 0, 0)) true).zsq)) :=
  distance_estimate_defined_iff 3 0 2 2 false (fun _ => (0, 0, 0)) true

/-- Claim C8: splitting a region of even pixel dimensions `2n × 2n`
(`n ≥ 2`) with inset 1 produces exactly 4 children at the floor-halfway
coordinates; the children are pairwise disjoint, lie strictly inside the
parent's scanned 1-pixel border, in fact tile the inset rectangle exactly
(the inter-child gap is empty), and border, gap and children together tile
the original region with no overlap. -/
theorem quadtree_split_even_tiling (q : QuadTree) (n : ℤ) (hn : 2 ≤ n)
    (hc : q.cols = 2 * n) (hr : q.rows = 2 * n) :
    ∃ c0 c1 c2 c3 : QuadTree,
      q.split 1 = Except.ok [c0, c1, c2, c3] ∧
      c0 = ⟨(q.tl.1 + 1, q.tl.2 + 1), (q.tl.1 + n, q.tl.2 + n)⟩ ∧
      c1 = ⟨(q.tl.1 + n, q.tl.2 + 1), (q.tl.1 + 2 * n - 1, q.tl.2 + n)⟩ ∧
      c2 = ⟨(q.tl.1 + 1, q.tl.2 + n), (q.tl.1 + n, q.tl.2 + 2 * n - 1)⟩ ∧
      c3 = ⟨(q.tl.1 + n, q.tl.2 + n), (q.tl.1 + 2 * n - 1, q.tl.2 + 2 * n - 1)⟩ ∧
      (∀ p, ¬(c0.mem p ∧ c1.mem p)) ∧ (∀ p, ¬(c0.mem p ∧ c2.mem p)) ∧
      (∀ p, ¬(c0.mem p ∧ c3.mem p)) ∧ (∀ p, ¬(c1.mem p ∧ c2.mem p)) ∧
      (∀ p, ¬(c1.mem p ∧ c3.mem p)) ∧ (∀ p, ¬(c2.mem p ∧ c3.mem p)) ∧
      (∀ p, (c0.mem p ∨ c1.mem p ∨ c2.mem p ∨ c3.mem p) → q.inner 1 p) ∧
      (∀ p, q.inner 1 p → (c0.mem p ∨ c1.mem p ∨ c2.mem p ∨ c3.mem p)) ∧
      (∀ p, q.mem p ↔
        ((q.mem p ∧ ¬ q.inner 1 p) ∨
         (c0.mem p ∨ c1.mem p ∨ c2.mem p ∨ c3.mem p))) := by
  obtain ⟨⟨a, ty⟩, ⟨c, d⟩⟩ := q
  simp only [QuadTree.cols, QuadTree.rows] at hc hr
  have hc2 : c = a + 2 * n := by omega
  have hd2 : d = ty + 2 * n := by omega
  subst hc2 hd2
  refine ⟨_, _, _, _, ?_, rfl, rfl, rfl, rfl, ?_, ?_, ?_, ?_, ?_, ?_, ?_, ?_, ?_⟩
  · simp only [QuadTree.split]
    rw [if_neg (by omega), if_neg (by omega), if_neg (by omega), if_neg (by omega)]
    simp only [Except.ok.injEq, List.cons.injEq, and_true, QuadTree.mk.injEq,
      Prod.mk.injEq, true_and]
    omega
  all_goals intro p
  all_goals simp only [QuadTree.mem, QuadTree.inner]
  all_goals omega

/-- Witness for `quadtree_split_even_tiling` on the region
`[0,4) × [0,4)` with `n = 2`. -/
theorem quadtree_split_even_tiling_witness :
    ∃ c0 c1 c2 c3 : QuadTree,
      QuadTree.split ⟨(0, 0), (4, 4)⟩ 1 = Except.ok [c0, c1, c2, c3] ∧
      c0 = ⟨(1, 1), (2, 2)⟩ ∧
      c1 = ⟨(2, 1), (3, 2)⟩ ∧
      c2 = ⟨(1, 2), (2, 3)⟩ ∧
      c3 = ⟨(2, 2), (3, 3)⟩ ∧
      (∀ p, ¬(c0.mem p ∧ c1.mem p)) ∧ (∀ p, ¬(c0.mem p ∧ c2.mem p)) ∧
      (∀ p, ¬(c0.mem p ∧ c3.mem p)) ∧ (∀ p, ¬(c1.mem p ∧ c2.mem p)) ∧
      (∀ p, ¬(c1.mem p ∧ c3.mem p)) ∧ (∀ p, ¬(c2.mem p ∧ c3.mem p)) ∧
      (∀ p, (c0.mem p ∨ c1.mem p ∨ c2.mem p ∨ c3.mem p) →
        QuadTree.inner ⟨(0, 0), (4, 4)⟩ 1 p) ∧
      (∀ p, QuadTree.inner ⟨(0, 0), (4, 4)⟩ 1 p →
        (c0.mem p ∨ c1.mem p ∨ c2.mem p ∨ c3.mem p)) ∧
      (∀ p, QuadTree.mem ⟨(0, 0), (4, 4)⟩ p ↔
        ((QuadTree.mem ⟨(0, 0), (4, 4)⟩ p ∧ ¬ QuadTree.inner ⟨(0, 0), (4, 4)⟩ 1 p) ∨
         (c0.mem p ∨ c1.mem p ∨ c2.mem p ∨ c3.mem p))) :=
  quadtree_split_even_tiling ⟨(0, 0), (4, 4)⟩ 2 (by decide) (by decide) (by decide)

/-- Claim C9: `split(boundary)` raises exactly when the inset rectangle has
fewer than one row or fewer than one column, and whenever both inset
extents are at least 1 it returns 1, 2 or 4 children without error. -/
theorem quadtree_split_error_condition (q : QuadTree) (b : ℤ) :
    (q.split b = Except.error "Cannot split node." ↔
      (q.br.2 - b) - (q.tl.2 + b) < 1 ∨ (q.br.1 - b) - (q.tl.1 + b) < 1) ∧
    (∀ cs, q.split b = Except.ok cs →
      cs.length = 1 ∨ cs.length = 2 ∨ cs.length = 4) := by
  obtain ⟨⟨a, ty⟩, ⟨c, d⟩⟩ := q
  constructor
  · simp only [QuadTree.split]
    split_ifs with h1 h2 h3 h4 <;> simp <;> omega
  · intro cs hcs
    simp only [QuadTree.split] at hcs
    split_ifs at hcs
    all_goals simp only [Except.ok.injEq] at hcs
    all_goals subst hcs
    all_goals simp

/-- Witness for `quadtree_split_error_condition` on the region
`[0,4) × [0,4)` with boundary 1. -/
theorem quadtree_split_error_condition_witness :
    (QuadTree.split ⟨(0, 0), (4, 4)⟩ 1 = Except.error "Cannot split node." ↔
      ((4 : ℤ) - 1) - (0 + 1) < 1 ∨ ((4 : ℤ) - 1) - (0 + 1) < 1) ∧
    (∀ cs, QuadTree.split ⟨(0, 0), (4, 4)⟩ 1 = Except.ok cs →
      cs.length = 1 ∨ cs.length = 2 ∨ cs.length = 4) :=
  quadtree_split_error_condition ⟨(0, 0), (4, 4)⟩ 1

/-- Claim C10, counterexample: a buffer with too few rows (5 < 10) but
enough columns (12 ≥ 10) does not make `fill_array` raise: the source
checks `len(array) < br[1] and len(array[0]) < br[0]`, a conjunction, so a
single-axis deficiency passes the check and the (clipped) write proceeds. -/
theorem fill_array_one_axis_no_error :
    (QuadTree.fillArray ⟨(0, 0), (10, 10)⟩ 5 12 (fun _ _ => (0, 0, 0))
      (9, 9, 9) 1).isOk = true ∧ (5 : ℤ) < 10 :=
  of_decide_eq_true (by with_unfolding_all rfl)

/-- Claim C10 (amended): `fill_array` raises iff the buffer is smaller than
the region's bottom-right corner on BOTH axes (`len(array) < br[1] and
len(array[0]) < br[0]`); otherwise it performs the clipped slice
assignment, writing the `uint8`-cast value into exactly the inset cells
that lie inside the buffer and leaving every other cell unchanged. -/
theorem fill_array_error_condition (q : QuadTree) (bufRows bufCols : ℤ)
    (buf : Buffer) (v : Cell) (b : ℤ) :
    (q.fillArray bufRows bufCols buf v b = Except.error "Array too small" ↔
      bufRows < q.br.2 ∧ bufCols < q.br.1) ∧
    (∀ buf2, q.fillArray bufRows bufCols buf v b = Except.ok buf2 →
      ∀ i j : ℤ, buf2 i j =
        if q.tl.2 + b ≤ i ∧ i < q.br.2 - b ∧ q.tl.1 + b ≤ j ∧ j < q.br.1 - b ∧
           0 ≤ i ∧ i < bufRows ∧ 0 ≤ j ∧ j < bufCols then castCell v
        else buf i j) := by
  constructor
  · unfold QuadTree.fillArray
    split_ifs with h <;> simp [h]
  · intro buf2 hb i j
    unfold QuadTree.fillArray at hb
    split_ifs at hb
    simp only [Except.ok.injEq] at hb
    subst hb
    rfl

/-- Witness for `fill_array_error_condition` on a 20×20 buffer and the
region `[5,15) × [5,15)`. -/
theorem fill_array_error_condition_witness :
    ((QuadTree.fillArray ⟨(5, 5), (15, 15)⟩ 20 20 zeroBuf (9, 9, 9) 1 =
        Except.error "Array too small") ↔
      ((20 : ℤ) < 15 ∧ (20 : ℤ) < 15)) ∧
    (∀ buf2, QuadTree.fillArray ⟨(5, 5), (15, 15)⟩ 20 20 zeroBuf (9, 9, 9) 1 =
        Except.ok buf2 →
      ∀ i j : ℤ, buf2 i j =
        if (5 : ℤ) + 1 ≤ i ∧ i < 15 - 1 ∧ (5 : ℤ) + 1 ≤ j ∧ j < 15 - 1 ∧
           0 ≤ i ∧ i < 20 ∧ 0 ≤ j ∧ j < 20 then castCell (9, 9, 9)
        else zeroBuf i j) :=
  fill_array_error_condition ⟨(5, 5), (15, 15)⟩ 20 20 zeroBuf (9, 9, 9) 1

end Mandel
